import Mathlib

set_option linter.unusedVariables false

/-!
# Mystery Mansion: a verified model of the scenario generator

A shallow embedding of `game.py` (corbanmailloux/MysteryMansion).

* `PyRandom` models CPython's `random` module: the MT19937 generator
  (seeding via `init_by_array`, block twist, tempering) and the derived
  operations `getrandbits`, `_randbelow`, `shuffle`, `choice`, `sample`,
  `randrange` exactly as CPython implements them.  The only liberty taken
  is that the probabilistically terminating rejection loop of `_randbelow`
  is given a large finite fuel.  The model was checked word-for-word
  against CPython's output streams for several seeds.
* `Mansion` models the game itself: the static catalogs, the generation
  pipeline `Game.__init__` (`build_rooms`, `lock_rooms`,
  `furnish_rooms_smart`, `build_notes`), and the gameplay operations
  `explore_room`, `explore_furniture` and the furniture-name search of
  `get_input`.  Places where Python would raise are modelled by `Option`.

The theorems at the end of the file settle the specification claims; they
are stated over every RNG state (hence over every seed) wherever the claim
is universal, and evaluated at concrete seeds where it is existential.
-/

namespace PyRandom

/-- 2^32, the word size of MT19937. -/
def U32 : Nat := 4294967296

/-- 0xffffffff. -/
def M32 : Nat := 4294967295

/-- Apply `f` after forcing `n` to a numeral; semantically just `f n`
(this keeps kernel reduction of the long generator loops shallow). -/
def seqNat (f : Nat → α) (n : Nat) : α :=
  match n with
  | 0 => f 0
  | k + 1 => f (k + 1)

theorem seqNat_eq (f : Nat → α) (n : Nat) : seqNat f n = f n := by
  cases n <;> rfl

/-!
The 624-word `uint32_t mt[624]` state vector of MT19937 is packed
little-endian into a single natural number: word `i` occupies bits
`[32*i, 32*i+32)`.  `wordGet`/`wordSet` are the array reads/writes `mt[i]`.
-/

/-- `mt[i]` (read). -/
def wordGet (v i : Nat) : Nat := (v >>> (32 * i)) &&& M32

/-- `mt[i] = x` (write; `x < 2^32`). -/
def wordSet (v i x : Nat) : Nat :=
  v - (wordGet v i <<< (32 * i)) + (x <<< (32 * i))

/-- The `i = 1 .. 623` loop of `init_genrand`:
`mt[i] = (1812433253 * (mt[i-1] ^ (mt[i-1] >> 30)) + i) mod 2^32`. -/
def initGenrandGo : Nat → Nat → Nat → Nat
  | 0, v, _ => v
  | k + 1, v, i =>
    let prev := wordGet v (i - 1)
    seqNat (fun v => initGenrandGo k v (i + 1))
      (wordSet v i ((1812433253 * (Nat.xor prev (prev >>> 30)) + i) % U32))

/-- `init_genrand(s)` of MT19937. -/
def initGenrand (s : Nat) : Nat :=
  initGenrandGo 623 (wordSet 0 0 (s % U32)) 1

/-- One iteration of the first `init_by_array` loop (key mixing):
`mt[i] = (mt[i] ^ ((mt[i-1] ^ (mt[i-1] >> 30)) * 1664525)) + key[j] + j`,
with the index wraparounds of the reference implementation. -/
def ibaStep1 (key : List Nat) (v i j : Nat) : Nat × Nat × Nat :=
  let prev := wordGet v (i - 1)
  let x := ((Nat.xor (wordGet v i) ((Nat.xor prev (prev >>> 30)) * 1664525 % U32))
            + key.getD j 0 + j) % U32
  let v := wordSet v i x
  let (v, i) := if i + 1 ≥ 624 then (wordSet v 0 (wordGet v 623), 1) else (v, i + 1)
  let j := if j + 1 ≥ key.length then 0 else j + 1
  (v, i, j)

/-- The first `init_by_array` loop, `k` iterations. -/
def ibaLoop1 (key : List Nat) : Nat → Nat → Nat → Nat → Nat × Nat
  | 0, v, i, _ => (v, i)
  | k + 1, v, i, j =>
    match ibaStep1 key v i j with
    | (v, i, j) => seqNat (fun v => ibaLoop1 key k v i j) v

/-- One iteration of the second `init_by_array` loop:
`mt[i] = (mt[i] ^ ((mt[i-1] ^ (mt[i-1] >> 30)) * 1566083941)) - i`. -/
def ibaStep2 (v i : Nat) : Nat × Nat :=
  let prev := wordGet v (i - 1)
  let x := ((Nat.xor (wordGet v i) ((Nat.xor prev (prev >>> 30)) * 1566083941 % U32))
            + (U32 - i % U32)) % U32
  let v := wordSet v i x
  if i + 1 ≥ 624 then (wordSet v 0 (wordGet v 623), 1) else (v, i + 1)

/-- The second `init_by_array` loop, `k` iterations. -/
def ibaLoop2 : Nat → Nat → Nat → Nat
  | 0, v, _ => v
  | k + 1, v, i =>
    match ibaStep2 v i with
    | (v, i) => seqNat (fun v => ibaLoop2 k v i) v

/-- `init_by_array(key)` of MT19937. -/
def initByArray (key : List Nat) : Nat :=
  let v := initGenrand 19650218
  let (v, i) := ibaLoop1 key (max 624 key.length) v 1 0
  let v := ibaLoop2 623 v i
  wordSet v 0 2147483648

/-- The 2^32-ary digits of `n`, little-endian (fuel-driven division loop). -/
def u32WordsGo : Nat → Nat → List Nat
  | 0, _ => []
  | fuel + 1, n => if n = 0 then [] else n % U32 :: u32WordsGo fuel (n / U32)

/-- CPython turns an integer seed into a key for `init_by_array`: the 32-bit
words of its absolute value, little-endian ([0] for 0). -/
def seedKey (n : Nat) : List Nat :=
  if n = 0 then [0] else u32WordsGo n n

/-- MT19937 state: the packed 624-word vector and the extraction index
`mti` (the next word to hand out; ≥ 624 means a fresh twist is due). -/
structure MTState where
  mt : Nat
  mti : Nat
  deriving Repr, DecidableEq

/-- `random.seed(a)` for an integer argument: seeds from the 32-bit words of
the absolute value; `mti = 624` so the first extraction twists. -/
def pySeed (a : Int) : MTState :=
  ⟨initByArray (seedKey a.natAbs), 624⟩

/-- One in-place step of the MT19937 block twist at position `kk`
(reads through the evolving array with wraparound indices, exactly as the
reference implementation's in-place loops do). -/
def twistStep (v kk : Nat) : Nat :=
  let y := ((wordGet v kk) &&& 2147483648) ||| ((wordGet v ((kk + 1) % 624)) &&& 2147483647)
  wordSet v kk (Nat.xor (Nat.xor (wordGet v ((kk + 397) % 624)) (y >>> 1))
    (if y % 2 = 1 then 2567483615 else 0))

/-- The block-twist loop, `k` iterations starting at position `kk`. -/
def twistGo : Nat → Nat → Nat → Nat
  | 0, v, _ => v
  | k + 1, v, kk => seqNat (fun v => twistGo k v (kk + 1)) (twistStep v kk)

/-- The full MT19937 block twist. -/
def twistAll (v : Nat) : Nat := twistGo 624 v 0

/-- MT19937 tempering. -/
def temper (y : Nat) : Nat :=
  let y := Nat.xor y (y >>> 11)
  let y := Nat.xor y (Nat.land (y <<< 7) 2636928640)
  let y := Nat.xor y (Nat.land (y <<< 15) 4022730752)
  Nat.xor y (y >>> 18)

/-- `genrand_uint32`: twist a new block if the current one is exhausted,
then hand out the tempered word at `mti` and advance. -/
def genrand (st : MTState) : Nat × MTState :=
  if st.mti ≥ 624 then
    let mt := twistAll st.mt
    (temper (wordGet mt 0), ⟨mt, 1⟩)
  else
    (temper (wordGet st.mt st.mti), ⟨st.mt, st.mti + 1⟩)

/-- `getrandbits(k)` for 0 ≤ k ≤ 32: top `k` bits of one output word. -/
def getrandbits (k : Nat) (st : MTState) : Nat × MTState :=
  if k = 0 then (0, st)
  else
    let (x, st) := genrand st
    (x >>> (32 - k), st)

/-- `int.bit_length()`, by a fuel-driven halving loop. -/
def bitLenGo : Nat → Nat → Nat
  | 0, _ => 0
  | fuel + 1, n => if n = 0 then 0 else bitLenGo fuel (n / 2) + 1

/-- `n.bit_length()`. -/
def bitLength (n : Nat) : Nat := bitLenGo n n

/-- The rejection loop of `_randbelow_with_getrandbits`, with fuel.
CPython retries until `getrandbits(n.bit_length()) < n`; the chance of `fuel`
consecutive rejections is below 2^-fuel, so a large fuel is an exact model of
every practically reachable state; on exhaustion we return 0. -/
def randbelowGo : Nat → Nat → MTState → Nat × MTState
  | 0, _, st => (0, st)
  | fuel + 1, n, st =>
    let (r, st) := getrandbits (bitLength n) st
    if r < n then (r, st) else randbelowGo fuel n st

/-- `self._randbelow(n)`. -/
def randbelow (n : Nat) (st : MTState) : Nat × MTState :=
  randbelowGo 64 n st

/-- Swap positions `a` and `b` of a list (`x[i], x[j] = x[j], x[i]`). -/
def listSwap [Inhabited α] (l : List α) (a b : Nat) : List α :=
  let x := l.getD a default
  let y := l.getD b default
  (l.set a y).set b x

/-- The loop of `random.shuffle`: for i in reversed(range(1, len(x))):
j = _randbelow(i+1); swap x[i], x[j].  The first argument is the current
Python index `i`. -/
def shuffleGo [Inhabited α] : Nat → List α → MTState → List α × MTState
  | 0, l, st => (l, st)
  | i + 1, l, st =>
    let (j, st) := randbelow (i + 2) st
    shuffleGo i (listSwap l (i + 1) j) st

/-- `random.shuffle(x)` (Fisher-Yates from the top index down). -/
def pyShuffle [Inhabited α] (l : List α) (st : MTState) : List α × MTState :=
  shuffleGo (l.length - 1) l st

/-- `random.choice(seq)`: `seq[_randbelow(len(seq))]`.  On an empty sequence
CPython raises; the call sites in the game only pass nonempty lists, and the
default value is never reached there. -/
def pyChoice [Inhabited α] (l : List α) (st : MTState) : α × MTState :=
  let (j, st) := randbelow l.length st
  (l.getD j default, st)

/-- The selection loop of `random.sample` (pool branch, taken whenever the
population has at most 21 elements): result[i] = pool[j]; pool[j] = pool[n-i-1]. -/
def sampleGo [Inhabited α] (n : Nat) : Nat → Nat → List α → MTState → List α × MTState
  | 0, _, _, st => ([], st)
  | k + 1, i, pool, st =>
    let (j, st) := randbelow (n - i) st
    let chosen := pool.getD j default
    let pool := pool.set j (pool.getD (n - i - 1) default)
    let (rest, st) := sampleGo n k (i + 1) pool st
    (chosen :: rest, st)

/-- `random.sample(population, k)` for populations of at most 21 elements
(the only case the game exercises: it samples from 8 room codes). -/
def pySample [Inhabited α] (population : List α) (k : Nat) (st : MTState) :
    List α × MTState :=
  sampleGo population.length k 0 population st

/-- `random.randrange(1, 3)`: `1 + _randbelow(2)`. -/
def randrange13 (st : MTState) : Nat × MTState :=
  let (r, st) := randbelow 2 st
  (1 + r, st)

end PyRandom

namespace Mansion

open PyRandom

/-- The four item cards (`build_items`), by name. -/
def items : List String := ["Tape", "Letter", "Photos", "Map"]

/-- The four people cards (`build_items`), by name. -/
def people : List String := ["Cook", "Chauffeur", "Maid", "Butler"]

/-- A note, mirroring the boolean-flag record of the `Note` class.
`not_in` and `look_in` hold the referenced furniture piece (the source stores
the object, this model its code). -/
structure Note where
  money : Bool := false
  ask : Bool := false
  item : Option String := none
  person : Option String := none
  clue : Bool := false
  trapdoor : Bool := false
  secret : Option String := none
  not_in : Option Nat := none
  look_in : Option Nat := none
  deriving Repr, DecidableEq, Inhabited

/-- A piece of furniture: name, code, at most one note. -/
structure Furniture where
  name : String
  code : Nat
  note : Option Note := none
  deriving Repr, DecidableEq, Inhabited

/-- A room: name, code, contained furniture codes, locked flag. -/
structure Room where
  name : String
  code : Nat
  furniture : List Nat
  locked : Bool := false
  deriving Repr, DecidableEq, Inhabited

/-- The furniture catalog of `build_furniture` (dict insertion order). -/
def furnitureTable : List (Nat × String) := [
  (111, "Dining Room Chair #1 [111]"),
  (112, "Dining Room Chair #2 [112]"),
  (113, "Dining Room Table"),
  (114, "China Cabinet"),
  (121, "Sofa"),
  (122, "Coffee Table"),
  (123, "Bed"),
  (124, "Dresser"),
  (131, "Small Bookcase"),
  (132, "Refrigerator"),
  (133, "Sink"),
  (134, "Oven"),
  (141, "Kitchen Table"),
  (142, "Pool Table"),
  (143, "Pinball Machines"),
  (144, "Large Bookcase"),
  (211, "Whirlpool"),
  (212, "Treadmill"),
  (213, "Piano"),
  (214, "Telescope"),
  (221, "Clock"),
  (222, "Computer"),
  (223, "Juke Box"),
  (224, "Rug"),
  (231, "Fireplace"),
  (232, "Knight"),
  (233, "Television"),
  (234, "Fish Tank"),
  (241, "Lamp"),
  (242, "Planter"),
  (243, "Easel"),
  (244, "Black Armchair #1 [244]"),
  (311, "Black Armchair #2 [311]"),
  (312, "White Armchair #1 [312]"),
  (313, "White Armchair #2 [313]")]

/-- The 35 furniture codes, in catalog order. -/
def furnitureCodes : List Nat := furnitureTable.map (fun p => p.1)

/-- `build_furniture`: the catalog as `Furniture` values with their codes
stamped and no notes. -/
def buildFurniture : List Furniture :=
  furnitureTable.map (fun p => { name := p.2, code := p.1 })

/-- The nine room templates of `build_rooms`, in source order, each with its
anchored furniture (code 0 is the pre-assignment placeholder, `-1` in the
source; `build_rooms` overwrites it). -/
def roomTemplates : List Room := [
  { name := "Living Room", code := 0, furniture := [121, 122] },
  { name := "Bed Room", code := 0, furniture := [123, 124] },
  { name := "Kitchen", code := 0, furniture := [132, 133, 134, 141] },
  { name := "Music Room", code := 0, furniture := [213] },
  { name := "Game Room", code := 0, furniture := [142, 143] },
  { name := "Study", code := 0, furniture := [131] },
  { name := "Library", code := 0, furniture := [144] },
  { name := "Dining Room", code := 0, furniture := [111, 112, 113] },
  { name := "Gym", code := 0, furniture := [211, 212] }]

/-- The nine room code slots. -/
def roomNumbers : List Nat := [11, 12, 13, 14, 21, 22, 23, 24, 31]

/-- `build_rooms`: shuffle the templates, then stamp the fixed room numbers
onto them positionally (`dict(zip(room_numbers, room_names))`). -/
def buildRooms (st : MTState) : List Room × MTState :=
  let (shuffled, st) := pyShuffle roomTemplates st
  (List.zipWith (fun n r => { r with code := n }) roomNumbers shuffled, st)

/-- `lock_rooms`: sample `randrange(1, 3)` of the non-entrance room codes and
set their locked flags. -/
def lockRooms (rooms : List Room) (st : MTState) : List Room × MTState :=
  let roomNums := (rooms.map (fun r => r.code)).erase 11
  let (k, st) := randrange13 st
  let (toLock, st) := pySample roomNums k st
  (rooms.map (fun r => if r.code ∈ toLock then { r with locked := true } else r), st)

/-- `list.pop()`: remove and return the last element (`none` models the
IndexError on an empty list). -/
def popLast? : List α → Option (α × List α)
  | [] => none
  | l => match l.getLast? with
    | none => none
    | some x => some (x, l.dropLast)

/-- The anchored-furniture removal loop of `furnish_rooms_smart`:
`furniture_to_use.remove(f)` removes the first occurrence and raises
(`none`) if the element is absent. -/
def removeFirstAll : List Nat → List Nat → Option (List Nat)
  | l, [] => some l
  | l, x :: xs => if x ∈ l then removeFirstAll (l.erase x) xs else none

/-- The furniture-list length of the room with code `c`. -/
def roomLen (rooms : List Room) (c : Nat) : Nat :=
  match rooms.find? (fun r => r.code == c) with
  | some r => r.furniture.length
  | none => 0

/-- Append furniture code `x` to the room with code `c`. -/
def appendAt (rooms : List Room) (c : Nat) (x : Nat) : List Room :=
  rooms.map (fun r => if r.code == c then { r with furniture := r.furniture ++ [x] } else r)

/-- One sweep of the fill loop of `furnish_rooms_smart`: for each room (in
shuffled order) append one popped code if the room has fewer than 4 pieces
and the pool is nonempty. -/
def fillPass : List Nat → List Room → List Nat → List Room × List Nat
  | [], rooms, pool => (rooms, pool)
  | c :: order, rooms, pool =>
    if roomLen rooms c < 4 then
      match popLast? pool with
      | some (x, pool') => fillPass order (appendAt rooms c x) pool'
      | none => fillPass order rooms pool
    else fillPass order rooms pool

/-- The `while furniture_to_use:` loop, fueled.  (Python would loop forever
if furniture remained while every room was full; running out of fuel models
that divergence, and is proved unreachable from the game's inputs.) -/
def fillLoop : Nat → List Nat → List Room → List Nat → List Room × List Nat
  | 0, _, rooms, pool => (rooms, pool)
  | fuel + 1, order, rooms, pool =>
    match pool with
    | [] => (rooms, [])
    | _ =>
      let (rooms, pool) := fillPass order rooms pool
      fillLoop fuel order rooms pool

/-- `furnish_rooms_smart`: remove the anchored codes from the full catalog,
shuffle the remainder and the room sweep order, then round-robin fill every
room up to 4 pieces. -/
def furnishSmart (rooms : List Room) (st : MTState) : Option (List Room × MTState) :=
  match removeFirstAll furnitureCodes (rooms.flatMap (fun r => r.furniture)) with
  | none => none
  | some unassigned =>
    let (pool, st) := pyShuffle unassigned st
    let (order, st) := pyShuffle (rooms.map (fun r => r.code)) st
    let (rooms, _) := fillLoop pool.length order rooms pool
    some (rooms, st)

/-- `Game.find_furniture`: the first room whose furniture list contains the
given code. -/
def findFurniture (rooms : List Room) (c : Nat) : Option Room :=
  rooms.find? (fun r => r.furniture.contains c)

/-- Attach note `n` to the furniture piece with code `c`. -/
def setNote (furn : List Furniture) (c : Nat) (n : Option Note) : List Furniture :=
  furn.map (fun f => if f.code == c then { f with note := n } else f)

/-- A fresh "You found a clue!" note. -/
def clueNote : Note := { clue := true }

/-- The `for i in range(11)` clue loop of `build_notes`: pop a piece, attach
a clue note, remember the piece in `clue_furniture` (append order). -/
def clueLoop : Nat → List Nat → List Furniture → List Nat →
    Option (List Nat × List Furniture × List Nat)
  | 0, ftu, furn, acc => some (ftu, furn, acc)
  | n + 1, ftu, furn, acc =>
    match popLast? ftu with
    | none => none
    | some (c, ftu) => clueLoop n ftu (setNote furn c (some clueNote)) (acc ++ [c])

/-- A `for i in range(n)` loop of `build_notes` whose body first draws a note
from the RNG and then attaches it to a popped piece (the shape of the
secret-, not-in- and look-in-note loops). -/
def popAssignLoop (gen : MTState → Note × MTState) :
    Nat → List Nat → List Furniture → MTState →
    Option (List Nat × List Furniture × MTState)
  | 0, ftu, furn, st => some (ftu, furn, st)
  | n + 1, ftu, furn, st =>
    let (note, st) := gen st
    match popLast? ftu with
    | none => none
    | some (c, ftu) => popAssignLoop gen n ftu (setNote furn c (some note)) st

/-- Body of the secret-note loop: a coin-flip item-or-person ask plus a
"money is not in room" message for a random non-money room. -/
def secretGen (nonmoneyRooms : List Room) (st : MTState) : Note × MTState :=
  let (b, st) := pyChoice [true, false] st
  let (it, pe, st) :=
    if b then
      let (it, st) := pyChoice items st
      (some it, (none : Option String), st)
    else
      let (pe, st) := pyChoice people st
      ((none : Option String), some pe, st)
  let (room, st) := pyChoice nonmoneyRooms st
  ({ ask := true, item := it, person := pe,
     secret := some ("The money is not in the " ++ room.name ++ ".") }, st)

/-- Body of the not-in-note loop: reference a random non-money piece. -/
def notInGen (nonmoneyFurniture : List Nat) (st : MTState) : Note × MTState :=
  let (f, st) := pyChoice nonmoneyFurniture st
  ({ not_in := some f }, st)

/-- Body of the look-in-note loop: reference a random clue-bearing piece. -/
def lookInGen (clueFurniture : List Nat) (st : MTState) : Note × MTState :=
  let (f, st) := pyChoice clueFurniture st
  ({ look_in := some f }, st)

/-- `build_notes`: shuffle all 35 pieces once and pop from the stack for each
successive note group. -/
def buildNotes (furn0 : List Furniture) (rooms : List Room) (st : MTState) :
    Option (List Furniture) := do
  let (ftu, st) := pyShuffle (furn0.map (fun f => f.code)) st
  let (moneyCode, ftu) ← popLast? ftu
  let moneyRoom ← findFurniture rooms moneyCode
  let (it, st) := pyChoice items st
  let (pe, st) := pyChoice people st
  let furn := setNote furn0 moneyCode
    (some { money := true, ask := true, item := some it, person := some pe })
  let nonmoneyFurniture := (furn.map (fun f => f.code)).erase moneyCode
  let nonmoneyRooms := rooms.eraseP (fun r => r.code == moneyRoom.code)
  let (ftu, furn, clueFurniture) ← clueLoop 11 ftu furn []
  let (c, ftu) ← popLast? ftu
  let furn := setNote furn c (some { trapdoor := true })
  let (ftu, furn, st) ← popAssignLoop (secretGen nonmoneyRooms) 2 ftu furn st
  let (it2, st) := pyChoice items st
  let (pe2, st) := pyChoice people st
  let (c2, ftu) ← popLast? ftu
  let furn := setNote furn c2
    (some { ask := true, item := some it2, person := some pe2, clue := true })
  let (ftu, furn, st) ← popAssignLoop (notInGen nonmoneyFurniture) 6 ftu furn st
  let (_, furn, _) ← popAssignLoop (lookInGen clueFurniture) 4 ftu furn st
  some furn

/-- The game state: furniture (with notes), rooms, and the shared clue
counter. -/
structure Game where
  furniture : List Furniture
  rooms : List Room
  clues_found : Nat
  deriving Repr, DecidableEq, Inhabited

/-- `Game.__init__(seed)`: re-seed the global RNG (discarding whatever state
`_g` it held) and run the generation pipeline.  `none` marks the places where
Python would raise. -/
def gameInit (_g : MTState) (seed : Int) : Option Game :=
  let st := pySeed seed
  let furn := buildFurniture
  let p1 := buildRooms st
  let p2 := lockRooms p1.1 p1.2
  (furnishSmart p2.1 p2.2).bind fun p3 =>
    (buildNotes furn p3.1 p3.2).bind fun furn2 =>
      some { furniture := furn2, rooms := p3.1, clues_found := 0 }

/-- Result of `Game.explore_room`. -/
inductive RoomOutcome
  | invalid
  | lockedNoKey
  | explored (name : String) (furniture : List Nat)
  deriving Repr, DecidableEq

/-- `Game.explore_room`; `hasKey` is the player's y/n answer when a locked
room prompts for the key.  An unknown code reports "Invalid value entered."
and changes nothing. -/
def exploreRoom (game : Game) (roomNumber : Nat) (hasKey : Bool) :
    Game × RoomOutcome :=
  match game.rooms.find? (fun r => r.code == roomNumber) with
  | none => (game, .invalid)
  | some room =>
    if room.locked then
      if hasKey then
        let rooms := game.rooms.map (fun r =>
          if r.code == roomNumber then { r with locked := false } else r)
        ({ game with rooms := rooms }, .explored room.name room.furniture)
      else (game, .lockedNoKey)
    else (game, .explored room.name room.furniture)

/-- Result of `Game.explore_furniture`. -/
inductive NoteOutcome
  | invalid
  | noClue
  | trapdoorMsg
  | askDenied
  | foundClue
  | takeClue
  | secretMsg (s : String)
  | lookInMsg (c : Nat)
  | notInMsg (c : Nat)
  | win
  deriving Repr, DecidableEq

/-- `Game.explore_furniture`; `ansItem`/`ansPerson` are the player's y/n
answers to the item/person ask gates.  An unknown code reports
"Invalid value entered." and changes nothing; a consumed clue clears the
note's clue flag (and bumps the shared counter only while it is below 10). -/
def exploreFurniture (game : Game) (code : Nat) (ansItem ansPerson : Bool) :
    Game × NoteOutcome :=
  match game.furniture.find? (fun f => f.code == code) with
  | none => (game, .invalid)
  | some f =>
    match f.note with
    | none => (game, .noClue)
    | some note =>
      if note.trapdoor then (game, .trapdoorMsg)
      else if note.ask && note.item.isSome && !ansItem then (game, .askDenied)
      else if note.ask && note.person.isSome && !ansPerson then (game, .askDenied)
      else if note.clue then
        let furn := setNote game.furniture code (some { note with clue := false })
        if game.clues_found < 10 then
          ({ game with furniture := furn, clues_found := game.clues_found + 1 },
           .foundClue)
        else ({ game with furniture := furn }, .takeClue)
      else if note.secret.isSome then (game, .secretMsg (note.secret.getD ""))
      else if note.look_in.isSome then (game, .lookInMsg (note.look_in.getD 0))
      else if note.not_in.isSome then (game, .notInMsg (note.not_in.getD 0))
      else if note.money then (game, .win)
      else (game, .noClue)

/-- `str.lower()` on one character (ASCII case folding, which covers every
name in the game). -/
def charLower (c : Char) : Char :=
  if c.isUpper then Char.ofNat (c.toNat + 32) else c

/-- `str.lower()`, as the lowered character sequence. -/
def strLower (s : String) : List Char := s.data.map charLower

/-- The furniture search of `get_input`: case-insensitive substring match
(`in_value.lower() in furniture.name.lower()`) over all furniture, in
catalog order, independent of room assignment. -/
def searchFurniture (game : Game) (query : String) : List Furniture :=
  game.furniture.filter (fun f => decide (strLower query <:+: strLower f.name))

end Mansion


/-!
## Properties of the `PyRandom` primitives

All scenario-level theorems that hold "for every seed" are proved from the
following facts, which hold for **every** generator state: `_randbelow n`
returns a value below `n`, `shuffle` permutes, `choice` selects a member,
and `sample` (for the sizes the game uses) selects distinct members.
-/

namespace PyRandom

theorem randbelowGo_lt (fuel n : Nat) (st : MTState) (h : 0 < n) :
    (randbelowGo fuel n st).1 < n := by
  induction fuel generalizing st with
  | zero => simpa [randbelowGo] using h
  | succ k ih =>
    simp only [randbelowGo]
    by_cases hr : (getrandbits (bitLength n) st).1 < n
    · simp [hr]
    · simp only [hr, if_false]
      exact ih _

/-- `_randbelow(n)` always returns a value in `[0, n)` (for `n > 0`). -/
theorem randbelow_lt (n : Nat) (st : MTState) (h : 0 < n) :
    (randbelow n st).1 < n :=
  randbelowGo_lt 64 n st h

theorem listSwap_length [Inhabited α] (l : List α) (a b : Nat) :
    (listSwap l a b).length = l.length := by
  simp [listSwap]

theorem get_cons_set_perm (xs : List α) (j : Nat) (hj : j < xs.length) (x : α) :
    (xs[j] :: xs.set j x).Perm (x :: xs) := by
  induction xs generalizing j with
  | nil => simp at hj
  | cons y t ih =>
    cases j with
    | zero => simpa using List.Perm.swap x y t
    | succ j =>
      have hj' : j < t.length := by simpa using hj
      have h1 : (y :: t)[j + 1] :: (y :: t).set (j + 1) x
          = t[j] :: y :: t.set j x := by simp
      rw [h1]
      have h2 : (t[j] :: y :: t.set j x).Perm (y :: t[j] :: t.set j x) :=
        List.Perm.swap y (t[j]) (t.set j x)
      have h3 : (y :: t[j] :: t.set j x).Perm (y :: x :: t) :=
        List.Perm.cons y (ih j hj')
      have h4 : (y :: x :: t).Perm (x :: y :: t) := List.Perm.swap x y t
      exact (h2.trans h3).trans h4

theorem set_set_get_perm (l : List α) (i j : Nat) (hi : i < l.length)
    (hj : j < l.length) : ((l.set i l[j]).set j l[i]).Perm l := by
  induction l generalizing i j with
  | nil => simp at hi
  | cons x xs ih =>
    cases i with
    | zero =>
      cases j with
      | zero => simp
      | succ j =>
        have hj' : j < xs.length := by simpa using hj
        simpa using get_cons_set_perm xs j hj' x
    | succ i =>
      have hi' : i < xs.length := by simpa using hi
      cases j with
      | zero =>
        have h1 : ((x :: xs).set (i + 1) ((x :: xs)[0])).set 0 ((x :: xs)[i + 1])
            = xs[i] :: xs.set i x := by simp
        rw [h1]
        exact get_cons_set_perm xs i hi' x
      | succ j =>
        have hj' : j < xs.length := by simpa using hj
        simpa using List.Perm.cons x (ih i j hi' hj')

/-- Swapping two in-range positions permutes the list. -/
theorem listSwap_perm [Inhabited α] (l : List α) (a b : Nat)
    (ha : a < l.length) (hb : b < l.length) : (listSwap l a b).Perm l := by
  unfold listSwap
  rw [List.getD_eq_getElem l default ha, List.getD_eq_getElem l default hb]
  exact set_set_get_perm l a b ha hb

theorem shuffleGo_perm [Inhabited α] (i : Nat) (l : List α) (st : MTState)
    (h : i < l.length) : ((shuffleGo i l st).1).Perm l := by
  induction i generalizing l st with
  | zero => simp [shuffleGo]
  | succ k ih =>
    simp only [shuffleGo]
    have hj : (randbelow (k + 2) st).1 < k + 2 := randbelow_lt _ _ (by omega)
    have hswap : (listSwap l (k + 1) (randbelow (k + 2) st).1).Perm l :=
      listSwap_perm l _ _ h (by omega)
    have hlen : k < (listSwap l (k + 1) (randbelow (k + 2) st).1).length := by
      rw [listSwap_length]; omega
    exact (ih _ _ hlen).trans hswap

/-- `random.shuffle` permutes its input (for every generator state). -/
theorem pyShuffle_perm [Inhabited α] (l : List α) (st : MTState) :
    ((pyShuffle l st).1).Perm l := by
  unfold pyShuffle
  cases l with
  | nil => simp [shuffleGo]
  | cons x xs => exact shuffleGo_perm _ _ _ (by simp)

theorem pyShuffle_length [Inhabited α] (l : List α) (st : MTState) :
    ((pyShuffle l st).1).length = l.length :=
  (pyShuffle_perm l st).length_eq

/-- `random.choice` returns a member of its (nonempty) argument. -/
theorem pyChoice_mem [Inhabited α] (l : List α) (st : MTState) (h : l ≠ []) :
    (pyChoice l st).1 ∈ l := by
  unfold pyChoice
  have hl : 0 < l.length := List.length_pos.mpr h
  have hj : (randbelow l.length st).1 < l.length := randbelow_lt _ _ hl
  simp only
  rw [List.getD_eq_getElem l default hj]
  exact List.getElem_mem hj

end PyRandom

/-!
## Static facts about the catalogs and room templates
-/

namespace Mansion

open PyRandom

theorem furnitureCodes_nodup : furnitureCodes.Nodup := by decide

theorem furnitureCodes_length : furnitureCodes.length = 35 := by decide

theorem buildFurniture_map_code : buildFurniture.map (fun f => f.code) = furnitureCodes := by
  decide

theorem buildFurniture_notes_none : ∀ f ∈ buildFurniture, f.note = none := by decide

theorem roomNumbers_nodup : roomNumbers.Nodup := by decide

theorem roomTemplates_length : roomTemplates.length = 9 := by decide

theorem roomTemplates_names_nodup : (roomTemplates.map (fun r => r.name)).Nodup := by decide

theorem roomTemplates_locked : ∀ r ∈ roomTemplates, r.locked = false := by decide

theorem roomTemplates_sizes : roomTemplates.map (fun r => r.furniture.length)
    = [2, 2, 4, 1, 2, 1, 1, 3, 2] := by decide

theorem roomTemplates_anchor_count :
    (roomTemplates.flatMap (fun r => r.furniture)).length = 18 := by decide

theorem roomTemplates_anchor_nodup :
    (roomTemplates.flatMap (fun r => r.furniture)).Nodup := by decide

theorem roomTemplates_anchor_sub :
    ∀ c ∈ roomTemplates.flatMap (fun r => r.furniture), c ∈ furnitureCodes := by decide

/-!
## `build_rooms` and `lock_rooms`
-/

theorem zipWith_stamp_map_code (ns : List Nat) (rs : List Room)
    (h : ns.length = rs.length) :
    (List.zipWith (fun n r => { r with code := n }) ns rs).map (fun r => r.code) = ns := by
  induction ns generalizing rs with
  | nil => simp
  | cons n ns ih =>
    cases rs with
    | nil => simp at h
    | cons r rs =>
      simp only [List.zipWith_cons_cons, List.map_cons]
      rw [ih rs (by simpa using h)]

theorem zipWith_stamp_strip (ns : List Nat) (rs : List Room)
    (h : ns.length = rs.length) :
    (List.zipWith (fun n r => { r with code := n }) ns rs).map
        (fun r => (r.name, r.furniture, r.locked))
      = rs.map (fun r => (r.name, r.furniture, r.locked)) := by
  induction ns generalizing rs with
  | nil => cases rs with
    | nil => simp
    | cons r rs => simp at h
  | cons n ns ih =>
    cases rs with
    | nil => simp at h
    | cons r rs =>
      simp only [List.zipWith_cons_cons, List.map_cons]
      rw [ih rs (by simpa using h)]

/-- `build_rooms` produces rooms whose codes are exactly `roomNumbers` (in
order) and whose names/anchors/locked flags are a permutation of the
templates. -/
theorem buildRooms_spec (st : MTState) :
    ((buildRooms st).1.map (fun r => r.code) = roomNumbers) ∧
    (((buildRooms st).1.map (fun r => (r.name, r.furniture, r.locked))).Perm
      (roomTemplates.map (fun r => (r.name, r.furniture, r.locked)))) := by
  have hp := pyShuffle_perm roomTemplates st
  have hl := pyShuffle_length roomTemplates st
  unfold buildRooms
  rcases hps : pyShuffle roomTemplates st with ⟨l, s⟩
  rw [hps] at hp hl
  simp only at hp hl ⊢
  have hlen : roomNumbers.length = l.length := by
    rw [hl]; decide
  refine ⟨zipWith_stamp_map_code _ _ hlen, ?_⟩
  rw [zipWith_stamp_strip _ _ hlen]
  exact hp.map _

end Mansion

namespace Mansion

open PyRandom

theorem roomNumbers_erase :
    roomNumbers.erase 11 = [12, 13, 14, 21, 22, 23, 24, 31] := by decide

/-- Enumerated check behind `pySample_pair_spec`: for any two in-range draws
from the 8-element non-entrance pool, the two picked codes are distinct
members of the pool. -/
theorem samplePool_cases : ∀ (a : Fin 8) (b : Fin 7),
    ([12, 13, 14, 21, 22, 23, 24, 31].getD a.1 default ≠
      (([12, 13, 14, 21, 22, 23, 24, 31].set a.1
        (([12, 13, 14, 21, 22, 23, 24, 31] : List Nat).getD 7 default)).getD b.1 default)) ∧
    [12, 13, 14, 21, 22, 23, 24, 31].getD a.1 default ∈ ([12, 13, 14, 21, 22, 23, 24, 31] : List Nat) ∧
    (([12, 13, 14, 21, 22, 23, 24, 31].set a.1
        (([12, 13, 14, 21, 22, 23, 24, 31] : List Nat).getD 7 default)).getD b.1 default)
      ∈ ([12, 13, 14, 21, 22, 23, 24, 31] : List Nat) := by decide

/-- `random.sample` of the non-entrance pool with k ∈ {1, 2}: the result has
`k` distinct members of the pool. -/
theorem pySample18_spec (k : Nat) (st : MTState) (hk : k = 1 ∨ k = 2) :
    ((pySample [12, 13, 14, 21, 22, 23, 24, 31] k st).1.Nodup) ∧
    ((pySample [12, 13, 14, 21, 22, 23, 24, 31] k st).1.length = k) ∧
    (∀ x ∈ (pySample [12, 13, 14, 21, 22, 23, 24, 31] k st).1,
      x ∈ ([12, 13, 14, 21, 22, 23, 24, 31] : List Nat)) := by
  have h8 : ([12, 13, 14, 21, 22, 23, 24, 31] : List Nat).length = 8 := by decide
  rcases hk with hk | hk <;> subst hk
  · -- k = 1
    have hj : (randbelow 8 st).1 < 8 := randbelow_lt 8 st (by omega)
    unfold pySample
    rw [h8]
    simp only [sampleGo, Nat.sub_zero]
    rcases h0 : randbelow 8 st with ⟨j0, st0⟩
    rw [h0] at hj
    simp only at hj ⊢
    obtain ⟨-, hmem, -⟩ := samplePool_cases ⟨j0, hj⟩ ⟨0, by omega⟩
    exact ⟨by simp, by simp, by simpa using hmem⟩
  · -- k = 2
    have hj0 : (randbelow 8 st).1 < 8 := randbelow_lt 8 st (by omega)
    unfold pySample
    rw [h8]
    simp only [sampleGo, Nat.sub_zero]
    rcases h0 : randbelow 8 st with ⟨j0, st0⟩
    rw [h0] at hj0
    simp only at hj0 ⊢
    have hj1 : (randbelow (8 - 1) st0).1 < 7 := randbelow_lt _ st0 (by omega)
    rcases h1 : randbelow (8 - 1) st0 with ⟨j1, st1⟩
    rw [h1] at hj1
    simp only at hj1 ⊢
    simp only [show (8 : Nat) - 1 = 7 from rfl]
    obtain ⟨hne, hm1, hm2⟩ := samplePool_cases ⟨j0, hj0⟩ ⟨j1, hj1⟩
    refine ⟨List.nodup_cons.mpr ⟨?_, List.nodup_singleton _⟩, by simp, ?_⟩
    · intro hmem
      exact hne (by simpa using hmem)
    · intro x hx
      simp only [List.mem_cons, List.not_mem_nil, or_false] at hx
      rcases hx with rfl | rfl
      · exact hm1
      · exact hm2

/-- `lock_rooms`: locks exactly the codes of a 1- or 2-element distinct
sample of the non-entrance codes, and changes nothing else. -/
theorem lockRooms_spec (rooms : List Room) (st : MTState)
    (hcode : rooms.map (fun r => r.code) = roomNumbers) :
    ∃ toLock : List Nat,
      toLock.Nodup ∧ (toLock.length = 1 ∨ toLock.length = 2) ∧
      (∀ x ∈ toLock, x ∈ ([12, 13, 14, 21, 22, 23, 24, 31] : List Nat)) ∧
      (lockRooms rooms st).1 = rooms.map (fun r =>
        if r.code ∈ toLock then { r with locked := true } else r) := by
  unfold lockRooms
  rw [hcode, roomNumbers_erase]
  have hk : (randrange13 st).1 = 1 ∨ (randrange13 st).1 = 2 := by
    have h2 : (randbelow 2 st).1 < 2 := randbelow_lt 2 st (by omega)
    unfold randrange13
    rcases h0 : randbelow 2 st with ⟨r, st0⟩
    rw [h0] at h2
    simp only at h2 ⊢
    omega
  rcases hr : randrange13 st with ⟨k, st1⟩
  rw [hr] at hk
  simp only at hk ⊢
  have hspec := pySample18_spec k st1 hk
  rcases hs : pySample [12, 13, 14, 21, 22, 23, 24, 31] k st1 with ⟨toLock, st2⟩
  rw [hs] at hspec
  simp only at hspec ⊢
  exact ⟨toLock, hspec.1, by rw [hspec.2.1]; exact hk, hspec.2.2, rfl⟩

end Mansion

/-!
## List helpers: `list.pop()`, `list.remove(x)` loops, keyed lookup
-/

namespace Mansion

open PyRandom

theorem popLast?_spec (l : List α) (h : l ≠ []) :
    ∃ x t, popLast? l = some (x, t) ∧ l = t ++ [x] := by
  cases l with
  | nil => exact absurd rfl h
  | cons a l' =>
    refine ⟨(a :: l').getLast (by simp), (a :: l').dropLast, ?_, ?_⟩
    · show (match (a :: l').getLast? with
        | none => none
        | some x => some (x, (a :: l').dropLast)) = _
      rw [List.getLast?_eq_getLast (a :: l') (by simp)]
    · exact (List.dropLast_append_getLast (by simp)).symm

theorem popLast?_eq_some {l t : List α} {x : α} (h : popLast? l = some (x, t)) :
    l = t ++ [x] := by
  cases l with
  | nil => simp [popLast?] at h
  | cons a l' =>
    obtain ⟨y, u, hp, he⟩ := popLast?_spec (a :: l') (by simp)
    rw [hp] at h
    obtain ⟨rfl, rfl⟩ := Prod.mk.inj (Option.some.inj h)
    exact he

theorem removeFirstAll_spec (xs : List Nat) : ∀ (l : List Nat), xs.Nodup →
    (∀ x ∈ xs, x ∈ l) →
    ∃ l', removeFirstAll l xs = some l' ∧ (xs ++ l').Perm l := by
  induction xs with
  | nil => exact fun l _ _ => ⟨l, rfl, by simp⟩
  | cons x xs ih =>
    intro l hnd hsub
    have hx : x ∈ l := hsub x (by simp)
    have hsub' : ∀ y ∈ xs, y ∈ l.erase x := by
      intro y hy
      have hyl : y ∈ l := hsub y (by simp [hy])
      have hxy : y ≠ x := by
        rintro rfl
        exact (List.nodup_cons.mp hnd).1 hy
      exact (List.mem_erase_of_ne hxy).mpr hyl
    obtain ⟨l', hrem, hperm⟩ := ih (l.erase x) (List.nodup_cons.mp hnd).2 hsub'
    refine ⟨l', ?_, ?_⟩
    · simp only [removeFirstAll, hx, if_true]
      exact hrem
    · have h1 : ((x :: xs) ++ l') = x :: (xs ++ l') := rfl
      rw [h1]
      exact ((hperm.cons x).trans (List.perm_cons_erase hx).symm)

theorem find?_key_of_nodup {κ : Type} [DecidableEq κ] (key : α → κ)
    {l : List α} {a : α} (hnd : (l.map key).Nodup) (ha : a ∈ l) :
    l.find? (fun x => key x == key a) = some a := by
  induction l with
  | nil => simp at ha
  | cons y rest ih =>
    rcases List.mem_cons.mp ha with rfl | ha'
    · simp [List.find?]
    · have hmem : key a ∈ rest.map key := List.mem_map_of_mem key ha'
      have hno : key y ∉ rest.map key := (List.nodup_cons.mp hnd).1
      have hy : (key y == key a) = false := by
        simp only [beq_eq_false_iff_ne]
        exact fun he => hno (he ▸ hmem)
      rw [List.find?]
      rw [hy]
      exact ih (List.nodup_cons.mp hnd).2 ha'

theorem find?_key_eq_none {κ : Type} [DecidableEq κ] (key : α → κ)
    {l : List α} {k : κ} (hk : k ∉ l.map key) :
    l.find? (fun x => key x == k) = none := by
  induction l with
  | nil => rfl
  | cons y rest ih =>
    have hy : (key y == k) = false := by
      simp only [beq_eq_false_iff_ne]
      rintro rfl
      exact hk (by simp)
    rw [List.find?, hy]
    exact ih (fun h => hk (by simp [h]))

end Mansion

/-!
## Notes on furniture: `setNote` and lookup
-/

namespace Mansion

open PyRandom

/-- The note carried by the furniture piece with code `c` (`none` when the
piece is absent or carries no note). -/
def noteAt (furn : List Furniture) (c : Nat) : Option Note :=
  match furn.find? (fun f => f.code == c) with
  | some f => f.note
  | none => none

theorem setNote_map_code (furn : List Furniture) (c : Nat) (n : Option Note) :
    (setNote furn c n).map (fun f => f.code) = furn.map (fun f => f.code) := by
  unfold setNote
  rw [List.map_map]
  apply List.map_congr_left
  intro f _
  by_cases h : f.code == c <;> simp [Function.comp, h]

theorem setNote_map_name (furn : List Furniture) (c : Nat) (n : Option Note) :
    (setNote furn c n).map (fun f => f.name) = furn.map (fun f => f.name) := by
  unfold setNote
  rw [List.map_map]
  apply List.map_congr_left
  intro f _
  by_cases h : f.code == c <;> simp [Function.comp, h]

theorem setNote_find? (furn : List Furniture) (c c' : Nat) (n : Option Note) :
    (setNote furn c n).find? (fun f => f.code == c')
      = (furn.find? (fun f => f.code == c')).map
          (fun f => if f.code == c then { f with note := n } else f) := by
  unfold setNote
  rw [List.find?_map]
  have hfun : ((fun f => f.code == c') ∘
      (fun f => if f.code == c then { f with note := n } else f)) = (fun (f : Furniture) => f.code == c') := by
    funext f
    by_cases h : f.code == c <;> simp [Function.comp, h]
  rw [hfun]

theorem noteAt_setNote_same (furn : List Furniture) (c : Nat) (n : Option Note)
    (hc : c ∈ furn.map (fun f => f.code)) :
    noteAt (setNote furn c n) c = n := by
  obtain ⟨f, hf, hfc⟩ := List.mem_map.mp hc
  have hsome : (furn.find? (fun f => f.code == c)).isSome :=
    List.find?_isSome.mpr ⟨f, hf, by simp [hfc]⟩
  obtain ⟨f0, hf0⟩ := Option.isSome_iff_exists.mp hsome
  have hp := List.find?_some hf0
  unfold noteAt
  rw [setNote_find?, hf0]
  simp [hp]
  rw [if_pos (show f0.code = c by simpa using hp)]

theorem noteAt_setNote_ne (furn : List Furniture) (c c' : Nat) (n : Option Note)
    (h : c' ≠ c) : noteAt (setNote furn c n) c' = noteAt furn c' := by
  unfold noteAt
  rw [setNote_find?]
  cases hf : furn.find? (fun f => f.code == c') with
  | none => rfl
  | some f0 =>
    have hp := List.find?_some hf
    have hceq : f0.code = c' := by simpa using hp
    have hne : f0.code ≠ c := by
      rw [hceq]
      exact h
    simp [hne]

end Mansion

/-!
## `furnish_rooms_smart`: the round-robin fill
-/

namespace Mansion

open PyRandom

/-- Total unfilled capacity of the rooms (cap 4 each). -/
def deficit (rooms : List Room) : Nat :=
  (rooms.map (fun r => 4 - r.furniture.length)).sum

/-- All furniture codes placed in the rooms, in room order. -/
def allFurn (rooms : List Room) : List Nat :=
  rooms.flatMap (fun r => r.furniture)

/-- Everything about a room except its furniture list. -/
def skeleton (rooms : List Room) : List (Nat × String × Bool) :=
  rooms.map (fun r => (r.code, r.name, r.locked))

theorem skeleton_map_code (rooms : List Room) :
    rooms.map (fun r => r.code) = (skeleton rooms).map (fun p => p.1) := by
  unfold skeleton
  rw [List.map_map]
  rfl

theorem appendAt_skeleton (rooms : List Room) (c x : Nat) :
    skeleton (appendAt rooms c x) = skeleton rooms := by
  unfold skeleton appendAt
  rw [List.map_map]
  apply List.map_congr_left
  intro r _
  by_cases h : r.code == c <;> simp [Function.comp, h]

theorem appendAt_not_mem (rooms : List Room) (c x : Nat)
    (h : c ∉ rooms.map (fun r => r.code)) : appendAt rooms c x = rooms := by
  unfold appendAt
  have hall : ∀ r ∈ rooms,
      (if r.code == c then { r with furniture := r.furniture ++ [x] } else r) = r := by
    intro r hr
    have hne : r.code ≠ c := fun he => h (he ▸ List.mem_map_of_mem _ hr)
    simp [hne]
  calc rooms.map (fun r => if r.code == c then { r with furniture := r.furniture ++ [x] } else r)
      = rooms.map id := List.map_congr_left hall
    _ = rooms := List.map_id rooms

theorem find?_code_mem (rooms : List Room) (c : Nat)
    (hc : c ∈ rooms.map (fun r => r.code)) :
    ∃ r, rooms.find? (fun a => a.code == c) = some r ∧ r ∈ rooms ∧ r.code = c := by
  obtain ⟨r, hr, hrc⟩ := List.mem_map.mp hc
  have hsome : (rooms.find? (fun a => a.code == c)).isSome :=
    List.find?_isSome.mpr ⟨r, hr, by simp [hrc]⟩
  obtain ⟨r0, hr0⟩ := Option.isSome_iff_exists.mp hsome
  have hp := List.find?_some hr0
  exact ⟨r0, hr0, List.mem_of_find?_eq_some hr0, by simpa using hp⟩

theorem find?_code_of_nodup_mem {rooms : List Room} {r : Room} (c : Nat)
    (hnd : (rooms.map (fun a => a.code)).Nodup) (hr : r ∈ rooms) (hrc : r.code = c) :
    rooms.find? (fun a => a.code == c) = some r := by
  have h1 := find?_key_of_nodup (fun a : Room => a.code) hnd hr
  have h2 : rooms.find? (fun a => a.code == r.code) = some r := h1
  rwa [hrc] at h2

theorem nodup_code_tail {y : Room} {rest : List Room}
    (hnd : ((y :: rest).map (fun r => r.code)).Nodup) :
    y.code ∉ rest.map (fun r => r.code) ∧ (rest.map (fun r => r.code)).Nodup := by
  rw [List.map_cons] at hnd
  exact ⟨(List.nodup_cons.mp hnd).1, (List.nodup_cons.mp hnd).2⟩

theorem appendAt_allFurn (rooms : List Room) (c x : Nat)
    (hnd : (rooms.map (fun r => r.code)).Nodup)
    (hc : c ∈ rooms.map (fun r => r.code)) :
    (allFurn (appendAt rooms c x)).Perm (x :: allFurn rooms) := by
  induction rooms with
  | nil => simp at hc
  | cons y rest ih =>
    have hnd' : (rest.map (fun r => r.code)).Nodup := (nodup_code_tail hnd).2
    by_cases hy : y.code = c
    · have hcr : c ∉ rest.map (fun r => r.code) := hy ▸ (nodup_code_tail hnd).1
      unfold allFurn appendAt
      simp only [List.map_cons, List.flatMap_cons]
      rw [if_pos (by simp [hy])]
      have hrest : rest.map (fun r => if r.code == c then { r with furniture := r.furniture ++ [x] } else r) = rest := by
        have h0 := appendAt_not_mem rest c x hcr
        unfold appendAt at h0
        exact h0
      rw [hrest]
      simp only
      have h1 : ((y.furniture ++ [x]) ++ rest.flatMap (fun r => r.furniture)).Perm
          ((x :: y.furniture) ++ rest.flatMap (fun r => r.furniture)) :=
        (List.perm_append_singleton x y.furniture).append_right _
      exact h1
    · have hc' : c ∈ rest.map (fun r => r.code) := by
        rcases List.mem_cons.mp (by simpa using hc : c ∈ y.code :: rest.map (fun r => r.code)) with he | hm
        · exact absurd he.symm hy
        · exact hm
      have hih := ih hnd' hc'
      unfold allFurn appendAt at hih ⊢
      simp only [List.map_cons, List.flatMap_cons]
      rw [if_neg (by simp [hy])]
      have h2 := hih.append_left y.furniture
      exact h2.trans List.perm_middle

theorem appendAt_deficit (rooms : List Room) (c x : Nat)
    (hnd : (rooms.map (fun r => r.code)).Nodup) {r : Room}
    (hr : r ∈ rooms) (hrc : r.code = c) (hlen : r.furniture.length < 4) :
    deficit (appendAt rooms c x) + 1 = deficit rooms := by
  induction rooms with
  | nil => cases hr
  | cons y rest ih =>
    have hnd' : (rest.map (fun a => a.code)).Nodup := (nodup_code_tail hnd).2
    rcases List.mem_cons.mp hr with rfl | hr'
    · have hcr : c ∉ rest.map (fun a => a.code) := hrc ▸ (nodup_code_tail hnd).1
      unfold deficit appendAt
      simp only [List.map_cons, List.sum_cons]
      rw [if_pos (by simp [hrc])]
      have hrest : rest.map (fun a => if a.code == c then { a with furniture := a.furniture ++ [x] } else a) = rest := by
        have h0 := appendAt_not_mem rest c x hcr
        unfold appendAt at h0
        exact h0
      rw [hrest]
      simp only [List.length_append, List.length_singleton]
      omega
    · by_cases hy : y.code = c
      · exfalso
        have h1 : c ∈ rest.map (fun a => a.code) := hrc ▸ List.mem_map_of_mem _ hr'
        exact (hy ▸ (nodup_code_tail hnd).1) h1
      · have hih := ih hnd' hr'
        unfold deficit appendAt at hih ⊢
        simp only [List.map_cons, List.sum_cons]
        rw [if_neg (by simp [hy])]
        omega

theorem appendAt_cap (rooms : List Room) (c x : Nat)
    (hnd : (rooms.map (fun r => r.code)).Nodup)
    (hcap : ∀ r ∈ rooms, r.furniture.length ≤ 4)
    (hroom : roomLen rooms c < 4) :
    ∀ r' ∈ appendAt rooms c x, r'.furniture.length ≤ 4 := by
  intro r' hr'
  unfold appendAt at hr'
  obtain ⟨r, hr, hmap⟩ := List.mem_map.mp hr'
  by_cases hrc : r.code = c
  · have hfind : rooms.find? (fun a => a.code == c) = some r :=
      find?_code_of_nodup_mem c hnd hr hrc
    have hlen : r.furniture.length < 4 := by
      unfold roomLen at hroom
      rw [hfind] at hroom
      exact hroom
    rw [← hmap, if_pos (by simp [hrc])]
    simp only [List.length_append, List.length_singleton]
    omega
  · rw [← hmap, if_neg (by simp [hrc])]
    exact hcap r hr

end Mansion

namespace Mansion

open PyRandom

theorem popLast?_eq_none {l : List α} (h : popLast? l = none) : l = [] := by
  cases l with
  | nil => rfl
  | cons a t =>
    obtain ⟨x, u, hp, -⟩ := popLast?_spec (a :: t) (by simp)
    rw [hp] at h
    cases h

theorem fillPass_pool_mono (order : List Nat) : ∀ (rooms : List Room) (pool : List Nat),
    (fillPass order rooms pool).2.length ≤ pool.length := by
  induction order with
  | nil => intro rooms pool; exact Nat.le_refl _
  | cons ch order ih =>
    intro rooms pool
    unfold fillPass
    by_cases hlt : roomLen rooms ch < 4
    · rw [if_pos hlt]
      split
      next x pool' hpop =>
        have hpe : pool = pool' ++ [x] := popLast?_eq_some hpop
        have := ih (appendAt rooms ch x) pool'
        have hlen : pool.length = pool'.length + 1 := by simp [hpe]
        omega
      next hpop =>
        exact ih rooms pool
    · rw [if_neg hlt]
      exact ih rooms pool

theorem fillPass_spec (order : List Nat) : ∀ (rooms : List Room) (pool : List Nat),
    (rooms.map (fun r => r.code)).Nodup →
    (∀ c ∈ order, c ∈ rooms.map (fun r => r.code)) →
    (∀ r ∈ rooms, r.furniture.length ≤ 4) →
    skeleton (fillPass order rooms pool).1 = skeleton rooms ∧
    (∀ r ∈ (fillPass order rooms pool).1, r.furniture.length ≤ 4) ∧
    deficit (fillPass order rooms pool).1 + pool.length
      = deficit rooms + (fillPass order rooms pool).2.length ∧
    ((allFurn (fillPass order rooms pool).1 ++ (fillPass order rooms pool).2).Perm
      (allFurn rooms ++ pool)) := by
  induction order with
  | nil =>
    intro rooms pool hnd horder hcap
    exact ⟨rfl, hcap, rfl, List.Perm.refl _⟩
  | cons ch order ih =>
    intro rooms pool hnd horder hcap
    unfold fillPass
    by_cases hlt : roomLen rooms ch < 4
    · rw [if_pos hlt]
      split
      next x pool' hpop =>
        have hpe : pool = pool' ++ [x] := popLast?_eq_some hpop
        have hch : ch ∈ rooms.map (fun r => r.code) := horder ch (by simp)
        obtain ⟨r, hfind, hrmem, hrc⟩ := find?_code_mem rooms ch hch
        have hrlen : r.furniture.length < 4 := by
          unfold roomLen at hlt
          rw [hfind] at hlt
          exact hlt
        have hsk := appendAt_skeleton rooms ch x
        have hcodes2 : (appendAt rooms ch x).map (fun r => r.code)
            = rooms.map (fun r => r.code) := by
          rw [skeleton_map_code, hsk, ← skeleton_map_code]
        have hnd2 : ((appendAt rooms ch x).map (fun r => r.code)).Nodup := by
          rw [hcodes2]; exact hnd
        have horder2 : ∀ c ∈ order, c ∈ (appendAt rooms ch x).map (fun r => r.code) := by
          intro c hc
          rw [hcodes2]
          exact horder c (List.mem_cons_of_mem _ hc)
        have hcap2 := appendAt_cap rooms ch x hnd hcap hlt
        obtain ⟨ihsk, ihcap, ihdef, ihperm⟩ := ih (appendAt rooms ch x) pool' hnd2 horder2 hcap2
        have hdef1 := appendAt_deficit rooms ch x hnd hrmem hrc hrlen
        have hpoollen : pool.length = pool'.length + 1 := by simp [hpe]
        refine ⟨ihsk.trans hsk, ihcap, by omega, ?_⟩
        have h1 := appendAt_allFurn rooms ch x hnd hch
        have h2 : (allFurn (appendAt rooms ch x) ++ pool').Perm
            ((x :: allFurn rooms) ++ pool') := h1.append_right pool'
        have h3 : ((x :: allFurn rooms) ++ pool') = x :: (allFurn rooms ++ pool') := rfl
        have h4 : (allFurn rooms ++ pool).Perm (x :: (allFurn rooms ++ pool')) := by
          rw [hpe, ← List.append_assoc]
          exact List.perm_append_singleton x _
        exact (ihperm.trans (h2.trans (h3 ▸ List.Perm.refl _))).trans h4.symm
      next hpop =>
        have hp : pool = [] := popLast?_eq_none hpop
        subst hp
        exact ih rooms [] hnd (fun c hc => horder c (List.mem_cons_of_mem _ hc)) hcap
    · rw [if_neg hlt]
      exact ih rooms pool hnd (fun c hc => horder c (List.mem_cons_of_mem _ hc)) hcap

theorem fillPass_progress (order : List Nat) : ∀ (rooms : List Room) (pool : List Nat),
    (rooms.map (fun r => r.code)).Nodup →
    pool ≠ [] →
    (∃ r ∈ rooms, r.furniture.length < 4 ∧ r.code ∈ order) →
    (fillPass order rooms pool).2.length < pool.length := by
  induction order with
  | nil =>
    rintro rooms pool - - ⟨r, -, -, hmem⟩
    simp at hmem
  | cons ch order ih =>
    rintro rooms pool hnd hpool ⟨r, hr, hrlen, hrord⟩
    unfold fillPass
    by_cases hlt : roomLen rooms ch < 4
    · rw [if_pos hlt]
      obtain ⟨x, t, hpop, hpe⟩ := popLast?_spec pool hpool
      split
      next x' t' hpop' =>
        rw [hpop] at hpop'
        obtain ⟨rfl, rfl⟩ := Prod.mk.inj (Option.some.inj hpop')
        have hmono := fillPass_pool_mono order (appendAt rooms ch x) t
        have hlen : pool.length = t.length + 1 := by simp [hpe]
        omega
      next hpop' =>
        rw [hpop] at hpop'
        cases hpop' 
    · rw [if_neg hlt]
      have hne : r.code ≠ ch := by
        intro heq
        apply hlt
        have hf := find?_code_of_nodup_mem ch hnd hr heq
        unfold roomLen
        rw [hf]
        exact hrlen
      have hrord' : r.code ∈ order := by
        rcases List.mem_cons.mp hrord with he | hm
        · exact absurd he hne
        · exact hm
      exact ih rooms pool hnd hpool ⟨r, hr, hrlen, hrord'⟩

end Mansion

namespace Mansion

open PyRandom

theorem deficit_pos_witness (rooms : List Room) (h : 0 < deficit rooms) :
    ∃ r ∈ rooms, r.furniture.length < 4 := by
  by_contra hno
  push_neg at hno
  have hz : deficit rooms = 0 := by
    unfold deficit
    rw [List.sum_eq_zero_iff]
    intro x hx
    obtain ⟨r, hr, hrf⟩ := List.mem_map.mp hx
    have := hno r hr
    omega
  omega

/-- The fueled `while furniture_to_use:` loop: with enough fuel and enough
room capacity it empties the pool, preserving the room skeletons, the cap
of 4, and the multiset of placed furniture. -/
theorem fillLoop_spec (fuel : Nat) : ∀ (order : List Nat) (rooms : List Room) (pool : List Nat),
    (rooms.map (fun r => r.code)).Nodup →
    (∀ c ∈ order, c ∈ rooms.map (fun r => r.code)) →
    (∀ r ∈ rooms, r.furniture.length ≤ 4) →
    (∀ r ∈ rooms, r.code ∈ order) →
    pool.length ≤ deficit rooms →
    pool.length ≤ fuel →
    skeleton (fillLoop fuel order rooms pool).1 = skeleton rooms ∧
    (∀ r ∈ (fillLoop fuel order rooms pool).1, r.furniture.length ≤ 4) ∧
    (fillLoop fuel order rooms pool).2 = [] ∧
    ((allFurn (fillLoop fuel order rooms pool).1).Perm (allFurn rooms ++ pool)) ∧
    deficit (fillLoop fuel order rooms pool).1 + pool.length = deficit rooms := by
  induction fuel with
  | zero =>
    intro order rooms pool hnd horder hcap hcov hdef hfuel
    have hp : pool = [] := List.length_eq_zero.mp (Nat.le_zero.mp hfuel)
    subst hp
    exact ⟨rfl, hcap, rfl, by rw [List.append_nil]; exact List.Perm.refl _, rfl⟩
  | succ n ih =>
    intro order rooms pool hnd horder hcap hcov hdef hfuel
    cases pool with
    | nil => exact ⟨rfl, hcap, rfl, by simp [fillLoop], by simp [fillLoop]⟩
    | cons p ps =>
      have hpoolne : (p :: ps) ≠ ([] : List Nat) := by simp
      obtain ⟨psk, pcap, pdef, pperm⟩ := fillPass_spec order rooms (p :: ps) hnd horder hcap
      have hdefpos : 0 < deficit rooms := by
        have : 0 < (p :: ps).length := by simp
        omega
      obtain ⟨r, hr, hrlen⟩ := deficit_pos_witness rooms hdefpos
      have hprog := fillPass_progress order rooms (p :: ps) hnd hpoolne
        ⟨r, hr, hrlen, hcov r hr⟩
      set q := fillPass order rooms (p :: ps) with hq
      have hcodes1 : q.1.map (fun r => r.code) = rooms.map (fun r => r.code) := by
        rw [skeleton_map_code, psk, ← skeleton_map_code]
      have hcov1 : ∀ r' ∈ q.1, r'.code ∈ order := by
        intro r' hr'
        have hmem : r'.code ∈ q.1.map (fun r => r.code) := List.mem_map_of_mem _ hr'
        rw [hcodes1] at hmem
        obtain ⟨r0, hr0, hr0c⟩ := List.mem_map.mp hmem
        exact hr0c ▸ hcov r0 hr0
      have ihres := ih order q.1 q.2 (by rw [hcodes1]; exact hnd)
        (by intro c hc; rw [hcodes1]; exact horder c hc) pcap hcov1
        (by omega) (by omega)
      obtain ⟨isk, icap, ipool, iperm, idef⟩ := ihres
      have hgoal_eq : fillLoop (n + 1) order rooms (p :: ps)
          = fillLoop n order q.1 q.2 := rfl
      rw [hgoal_eq]
      exact ⟨isk.trans psk, icap, ipool, iperm.trans pperm, by omega⟩

end Mansion

namespace Mansion

open PyRandom

theorem count_one_of_sum_one : ∀ (l : List Nat), (∀ x ∈ l, x ≤ 1) → l.sum = 1 →
    l.count 1 = 1 := by
  intro l
  induction l with
  | nil => intro _ h; simp at h
  | cons a t ih =>
    intro hle hsum
    rcases Nat.le_one_iff_eq_zero_or_eq_one.mp (hle a (by simp)) with rfl | rfl
    · have ht : t.sum = 1 := by simpa using hsum
      have := ih (fun x hx => hle x (by simp [hx])) ht
      simpa [List.count_cons] using this
    · have ht : t.sum = 0 := by simpa using hsum
      have hnot : (1 : Nat) ∉ t := by
        intro h1
        have := List.sum_eq_zero_iff.mp ht 1 h1
        omega
      have : t.count 1 = 0 := List.count_eq_zero.mpr hnot
      simp [List.count_cons, this]

/-- `furnish_rooms_smart` on a valid room list (codes `roomNumbers`, content a
permutation of the templates): it succeeds, preserves the room skeletons, and
partitions the full catalog across the rooms with every room at 3 or 4 pieces
and exactly one room at 3. -/
theorem furnishSmart_spec (rooms : List Room) (st : MTState)
    (hcodes : rooms.map (fun r => r.code) = roomNumbers)
    (hfurnperm : (rooms.map (fun r => r.furniture)).Perm
      (roomTemplates.map (fun r => r.furniture))) :
    ∃ rooms' st', furnishSmart rooms st = some (rooms', st') ∧
      skeleton rooms' = skeleton rooms ∧
      ((allFurn rooms').Perm furnitureCodes) ∧
      (allFurn rooms').Nodup ∧
      (∀ r ∈ rooms', r.furniture.length = 3 ∨ r.furniture.length = 4) ∧
      (rooms'.countP (fun r => r.furniture.length == 3) = 1) ∧
      rooms'.length = 9 := by
  have hanch : (rooms.flatMap (fun r => r.furniture)).Perm
      (roomTemplates.flatMap (fun r => r.furniture)) := by
    rw [List.flatMap_def, List.flatMap_def]
    exact hfurnperm.flatten
  have hanch_nodup : (rooms.flatMap (fun r => r.furniture)).Nodup :=
    hanch.nodup_iff.mpr roomTemplates_anchor_nodup
  have hanch_sub : ∀ x ∈ rooms.flatMap (fun r => r.furniture), x ∈ furnitureCodes :=
    fun x hx => roomTemplates_anchor_sub x (hanch.subset hx)
  obtain ⟨pool0, hrem, hrperm⟩ :=
    removeFirstAll_spec (rooms.flatMap (fun r => r.furniture)) furnitureCodes
      hanch_nodup hanch_sub
  have hanch_len : (rooms.flatMap (fun r => r.furniture)).length = 18 :=
    hanch.length_eq.trans roomTemplates_anchor_count
  have hpool0_len : pool0.length = 17 := by
    have := hrperm.length_eq
    rw [List.length_append, hanch_len, furnitureCodes_length] at this
    omega
  have hpool0_nodup : pool0.Nodup :=
    (List.nodup_append.mp (hrperm.nodup_iff.mpr furnitureCodes_nodup)).2.1
  -- the shuffled pool and sweep order
  have hpoolperm : ((pyShuffle pool0 st).1).Perm pool0 := pyShuffle_perm pool0 st
  set pool := (pyShuffle pool0 st).1 with hpooldef
  set st1 := (pyShuffle pool0 st).2 with hst1def
  have horderperm : ((pyShuffle (rooms.map (fun r => r.code)) st1).1).Perm roomNumbers := by
    rw [← hcodes]
    exact pyShuffle_perm _ st1
  set order := (pyShuffle (rooms.map (fun r => r.code)) st1).1 with horderdef
  set st2 := (pyShuffle (rooms.map (fun r => r.code)) st1).2 with hst2def
  have hfs : furnishSmart rooms st
      = some ((fillLoop pool.length order rooms pool).1, st2) := by
    unfold furnishSmart
    rw [hrem]
  -- hypotheses of the fill loop
  have hnd : (rooms.map (fun r => r.code)).Nodup := by
    rw [hcodes]; exact roomNumbers_nodup
  have horder : ∀ c ∈ order, c ∈ rooms.map (fun r => r.code) := by
    intro c hc
    rw [hcodes]
    exact horderperm.subset hc
  have hcap : ∀ r ∈ rooms, r.furniture.length ≤ 4 := by
    intro r hr
    have hmem : r.furniture ∈ roomTemplates.map (fun r => r.furniture) :=
      hfurnperm.subset (List.mem_map_of_mem _ hr)
    obtain ⟨t, ht, heq⟩ := List.mem_map.mp hmem
    have hbound : ∀ t ∈ roomTemplates, t.furniture.length ≤ 4 := by decide
    rw [← heq]
    exact hbound t ht
  have hcov : ∀ r ∈ rooms, r.code ∈ order := by
    intro r hr
    have : r.code ∈ rooms.map (fun r => r.code) := List.mem_map_of_mem _ hr
    rw [hcodes] at this
    exact (horderperm.mem_iff).mpr this
  have hdef18 : deficit rooms = 18 := by
    unfold deficit
    have h1 := (hfurnperm.map (fun fl => 4 - fl.length)).sum_eq
    rw [List.map_map, List.map_map] at h1
    have h2 : ((roomTemplates.map (fun r => r.furniture)).map (fun fl => 4 - fl.length)).sum
        = 18 := by decide
    rw [List.map_map] at h2
    exact h1.trans h2
  have hpool_len : pool.length = 17 := hpoolperm.length_eq.trans hpool0_len
  obtain ⟨lsk, lcap, lpool, lperm, ldef⟩ :=
    fillLoop_spec pool.length order rooms pool hnd horder hcap hcov
      (by rw [hpool_len, hdef18]; omega) (Nat.le_refl _)
  set rooms' := (fillLoop pool.length order rooms pool).1 with hrooms'
  -- the placed furniture is a permutation of the full catalog
  have hcat : (allFurn rooms').Perm furnitureCodes := by
    refine lperm.trans ?_
    refine (List.Perm.append (List.Perm.refl _) (hpoolperm)).trans ?_
    exact hrperm
  have hnodup' : (allFurn rooms').Nodup := hcat.nodup_iff.mpr furnitureCodes_nodup
  -- counting: 9 rooms, 35 codes, cap 4, so one room of 3 and eight of 4
  have hlen9 : rooms'.length = 9 := by
    have h1 : (skeleton rooms').length = (skeleton rooms).length := by rw [lsk]
    unfold skeleton at h1
    rw [List.length_map, List.length_map] at h1
    rw [h1]
    have := congrArg List.length hcodes
    rw [List.length_map] at this
    rw [this]
    decide
  have hdef1 : deficit rooms' = 1 := by
    rw [hpool_len, hdef18] at ldef
    omega
  have hterm_le : ∀ x ∈ rooms'.map (fun r => 4 - r.furniture.length), x ≤ 1 := by
    intro x hx
    have hle := List.single_le_sum (l := rooms'.map (fun r => 4 - r.furniture.length))
      (fun y _ => Nat.zero_le y) x hx
    unfold deficit at hdef1
    omega
  have hsizes : ∀ r ∈ rooms', r.furniture.length = 3 ∨ r.furniture.length = 4 := by
    intro r hr
    have hx := hterm_le _ (List.mem_map_of_mem (fun r => 4 - r.furniture.length) hr)
    have hc := lcap r hr
    omega
  have hcount : rooms'.countP (fun r => r.furniture.length == 3) = 1 := by
    have h1 : (rooms'.map (fun r => 4 - r.furniture.length)).count 1 = 1 :=
      count_one_of_sum_one _ hterm_le hdef1
    rw [List.count_eq_countP, List.countP_map] at h1
    rw [← h1]
    apply List.countP_congr
    intro r hr
    have := lcap r hr
    constructor
    · intro h3
      have h3' : r.furniture.length = 3 := by simpa using h3
      simp [Function.comp, h3']
    · intro h4
      have h4' : 4 - r.furniture.length = 1 := by simpa [Function.comp] using h4
      simp
      omega
  exact ⟨rooms', st2, hfs, lsk, hcat, hnodup', hsizes, hcount, hlen9⟩

end Mansion

/-!
## `build_notes`: note kinds and the pop-assign loops
-/

namespace Mansion

open PyRandom

/-- Classification of a furniture piece's note, following the note fields'
precedence: the money note (money+ask), the plain trapdoor, the combined
ask+clue note, plain clue notes, secret hints, not-in hints, look-in hints,
or no note at all. -/
inductive NoteKind
  | money
  | trapdoor
  | askClue
  | clue
  | secretHint
  | notInHint
  | lookInHint
  | empty
  deriving Repr, DecidableEq

/-- The kind of an optional note. -/
def kindOf (o : Option Note) : NoteKind :=
  match o with
  | none => .empty
  | some n =>
    if n.money then .money
    else if n.trapdoor then .trapdoor
    else if n.clue && n.ask then .askClue
    else if n.clue then .clue
    else if n.secret.isSome then .secretHint
    else if n.not_in.isSome then .notInHint
    else if n.look_in.isSome then .lookInHint
    else .empty

/-- Number of furniture pieces whose note has the given kind. -/
def countKind (furn : List Furniture) (k : NoteKind) : Nat :=
  (furn.map (fun f => kindOf f.note)).count k

theorem map_kind_eq_map_noteAt (furn : List Furniture)
    (hnd : (furn.map (fun f => f.code)).Nodup) :
    furn.map (fun f => kindOf f.note)
      = (furn.map (fun f => f.code)).map (fun c => kindOf (noteAt furn c)) := by
  rw [List.map_map]
  apply List.map_congr_left
  intro f hf
  have hfind : furn.find? (fun a => a.code == f.code) = some f :=
    find?_key_of_nodup (fun a : Furniture => a.code) hnd hf
  have : noteAt furn f.code = f.note := by
    unfold noteAt
    rw [hfind]
  simp only [Function.comp]
  rw [this]

theorem count_map_const_of_mem {g : Nat → NoteKind} {seg : List Nat} {k : NoteKind}
    (h : ∀ c ∈ seg, g c = k) (K : NoteKind) :
    (seg.map g).count K = if K = k then seg.length else 0 := by
  have h1 : seg.map g = List.replicate seg.length k := by
    rw [List.eq_replicate_iff]
    refine ⟨by simp, ?_⟩
    intro b hb
    obtain ⟨c, hc, hgc⟩ := List.mem_map.mp hb
    rw [← hgc]
    exact h c hc
  rw [h1, List.count_replicate]
  by_cases hK : K = k
  · subst hK
    simp
  · rw [if_neg (by simp only [beq_iff_eq]; exact fun h => hK h.symm), if_neg hK]

/-- The `for i in range(n)` clue loop: given `n ≤ |ftu|` and distinct codes,
it pops the last `n` codes, gives each a fresh clue note, appends them (in
pop order) to `clue_furniture`, and touches nothing else. -/
theorem clueLoop_spec : ∀ (n : Nat) (ftu : List Nat) (furn : List Furniture) (acc : List Nat),
    n ≤ ftu.length → ftu.Nodup →
    (∀ c ∈ ftu, c ∈ furn.map (fun f => f.code)) →
    ∃ furn',
      clueLoop n ftu furn acc
        = some (ftu.take (ftu.length - n), furn',
            acc ++ (ftu.drop (ftu.length - n)).reverse) ∧
      furn'.map (fun f => f.code) = furn.map (fun f => f.code) ∧
      furn'.map (fun f => f.name) = furn.map (fun f => f.name) ∧
      (∀ c ∈ ftu.drop (ftu.length - n), noteAt furn' c = some clueNote) ∧
      (∀ c, c ∉ ftu.drop (ftu.length - n) → noteAt furn' c = noteAt furn c) := by
  intro n
  induction n with
  | zero =>
    intro ftu furn acc _ _ _
    refine ⟨furn, ?_, rfl, rfl, ?_, fun c _ => rfl⟩
    · simp [clueLoop]
    · intro c hc
      simp at hc
  | succ n ih =>
    intro ftu furn acc hlen hnd hsub
    obtain ⟨x, t, hpop, hpe⟩ := popLast?_spec ftu (by
      intro h
      rw [h, List.length_nil] at hlen
      omega)
    have hlent : ftu.length = t.length + 1 := by simp [hpe]
    have hnd' : t.Nodup := by
      rw [hpe] at hnd
      exact (List.nodup_append.mp hnd).1
    have hxt : x ∉ t := by
      rw [hpe] at hnd
      have hd := (List.nodup_append.mp hnd).2.2
      intro hx
      exact hd hx (by simp)
    have hxcode : x ∈ furn.map (fun f => f.code) := hsub x (by rw [hpe]; simp)
    have hsub' : ∀ c ∈ t, c ∈ (setNote furn x (some clueNote)).map (fun f => f.code) := by
      intro c hc
      rw [setNote_map_code]
      exact hsub c (by rw [hpe]; simp [hc])
    obtain ⟨furn', heq, hcode, hname, hset, hkeep⟩ :=
      ih t (setNote furn x (some clueNote)) (acc ++ [x]) (by omega) hnd' hsub'
    have hstep : clueLoop (n + 1) ftu furn acc
        = clueLoop n t (setNote furn x (some clueNote)) (acc ++ [x]) := by
      conv_lhs => unfold clueLoop
      rw [hpop]
    have hk : ftu.length - (n + 1) = t.length - n := by omega
    have hkle : t.length - n ≤ t.length := Nat.sub_le _ _
    have htake : ftu.take (ftu.length - (n + 1)) = t.take (t.length - n) := by
      rw [hk, hpe, List.take_append_of_le_length hkle]
    have hdrop : ftu.drop (ftu.length - (n + 1)) = t.drop (t.length - n) ++ [x] := by
      rw [hk, hpe, List.drop_append_of_le_length hkle]
    refine ⟨furn', ?_, hcode.trans (setNote_map_code _ _ _),
      hname.trans (setNote_map_name _ _ _), ?_, ?_⟩
    · rw [hstep, heq, htake, hdrop]
      have : acc ++ ((t.drop (t.length - n) ++ [x]).reverse)
          = (acc ++ [x]) ++ (t.drop (t.length - n)).reverse := by
        rw [List.reverse_append]
        simp
      rw [this]
    · intro c hc
      rw [hdrop] at hc
      rcases List.mem_append.mp hc with hc1 | hc2
      · exact hset c hc1
      · have hcx : c = x := by simpa using hc2
        subst hcx
        have hnotdrop : c ∉ t.drop (t.length - n) :=
          fun hmem => hxt (List.drop_subset _ t hmem)
        rw [hkeep c hnotdrop]
        exact noteAt_setNote_same furn c (some clueNote) hxcode
    · intro c hc
      rw [hdrop] at hc
      have hc1 : c ∉ t.drop (t.length - n) := fun hm => hc (List.mem_append.mpr (Or.inl hm))
      have hc2 : c ≠ x := fun he => hc (List.mem_append.mpr (Or.inr (by simp [he])))
      rw [hkeep c hc1]
      exact noteAt_setNote_ne furn x c (some clueNote) hc2

/-- A pop-assign loop (`build_notes`' secret/not-in/look-in loops): given
`n ≤ |ftu|` and distinct codes, it pops the last `n` codes and gives each a
note freshly drawn from `gen`, touching nothing else.  `P` is any property
of every note `gen` can produce. -/
theorem popAssignLoop_spec (gen : MTState → Note × MTState) (P : Note → Prop)
    (hP : ∀ st, P (gen st).1) :
    ∀ (n : Nat) (ftu : List Nat) (furn : List Furniture) (st : MTState),
    n ≤ ftu.length → ftu.Nodup →
    (∀ c ∈ ftu, c ∈ furn.map (fun f => f.code)) →
    ∃ furn' st',
      popAssignLoop gen n ftu furn st = some (ftu.take (ftu.length - n), furn', st') ∧
      furn'.map (fun f => f.code) = furn.map (fun f => f.code) ∧
      furn'.map (fun f => f.name) = furn.map (fun f => f.name) ∧
      (∀ c ∈ ftu.drop (ftu.length - n), ∃ nt, P nt ∧ noteAt furn' c = some nt) ∧
      (∀ c, c ∉ ftu.drop (ftu.length - n) → noteAt furn' c = noteAt furn c) := by
  intro n
  induction n with
  | zero =>
    intro ftu furn st _ _ _
    refine ⟨furn, st, ?_, rfl, rfl, ?_, fun c _ => rfl⟩
    · simp [popAssignLoop]
    · intro c hc
      simp at hc
  | succ n ih =>
    intro ftu furn st hlen hnd hsub
    obtain ⟨x, t, hpop, hpe⟩ := popLast?_spec ftu (by
      intro h
      rw [h, List.length_nil] at hlen
      omega)
    have hlent : ftu.length = t.length + 1 := by simp [hpe]
    have hnd' : t.Nodup := by
      rw [hpe] at hnd
      exact (List.nodup_append.mp hnd).1
    have hxt : x ∉ t := by
      rw [hpe] at hnd
      have hd := (List.nodup_append.mp hnd).2.2
      intro hx
      exact hd hx (by simp)
    have hxcode : x ∈ furn.map (fun f => f.code) := hsub x (by rw [hpe]; simp)
    have hsub' : ∀ c ∈ t, c ∈ (setNote furn x (some (gen st).1)).map (fun f => f.code) := by
      intro c hc
      rw [setNote_map_code]
      exact hsub c (by rw [hpe]; simp [hc])
    obtain ⟨furn', st', heq, hcode, hname, hset, hkeep⟩ :=
      ih t (setNote furn x (some (gen st).1)) (gen st).2 (by omega) hnd' hsub'
    have hstep : popAssignLoop gen (n + 1) ftu furn st
        = popAssignLoop gen n t (setNote furn x (some (gen st).1)) (gen st).2 := by
      conv_lhs => unfold popAssignLoop
      rw [hpop]
    have hk : ftu.length - (n + 1) = t.length - n := by omega
    have hkle : t.length - n ≤ t.length := Nat.sub_le _ _
    have htake : ftu.take (ftu.length - (n + 1)) = t.take (t.length - n) := by
      rw [hk, hpe, List.take_append_of_le_length hkle]
    have hdrop : ftu.drop (ftu.length - (n + 1)) = t.drop (t.length - n) ++ [x] := by
      rw [hk, hpe, List.drop_append_of_le_length hkle]
    refine ⟨furn', st', ?_, hcode.trans (setNote_map_code _ _ _),
      hname.trans (setNote_map_name _ _ _), ?_, ?_⟩
    · rw [hstep, heq, htake]
    · intro c hc
      rw [hdrop] at hc
      rcases List.mem_append.mp hc with hc1 | hc2
      · exact hset c hc1
      · have hcx : c = x := by simpa using hc2
        subst hcx
        have hnotdrop : c ∉ t.drop (t.length - n) :=
          fun hmem => hxt (List.drop_subset _ t hmem)
        rw [hkeep c hnotdrop]
        exact ⟨(gen st).1, hP st, noteAt_setNote_same furn c _ hxcode⟩
    · intro c hc
      rw [hdrop] at hc
      have hc1 : c ∉ t.drop (t.length - n) := fun hm => hc (List.mem_append.mpr (Or.inl hm))
      have hc2 : c ≠ x := fun he => hc (List.mem_append.mpr (Or.inr (by simp [he])))
      rw [hkeep c hc1]
      exact noteAt_setNote_ne furn x c _ hc2

end Mansion

namespace Mansion

open PyRandom

theorem secretGen_spec (nonmoneyRooms : List Room) (hne : nonmoneyRooms ≠ [])
    (st : MTState) :
    ∃ r ∈ nonmoneyRooms,
      (secretGen nonmoneyRooms st).1.money = false ∧
      (secretGen nonmoneyRooms st).1.ask = true ∧
      (secretGen nonmoneyRooms st).1.clue = false ∧
      (secretGen nonmoneyRooms st).1.trapdoor = false ∧
      (secretGen nonmoneyRooms st).1.not_in = none ∧
      (secretGen nonmoneyRooms st).1.look_in = none ∧
      (secretGen nonmoneyRooms st).1.secret
        = some ("The money is not in the " ++ r.name ++ ".") := by
  unfold secretGen
  rcases hbc : pyChoice [true, false] st with ⟨b, st1⟩
  cases b
  · exact ⟨(pyChoice nonmoneyRooms (pyChoice people st1).2).1,
      pyChoice_mem _ _ hne, rfl, rfl, rfl, rfl, rfl, rfl, rfl⟩
  · exact ⟨(pyChoice nonmoneyRooms (pyChoice items st1).2).1,
      pyChoice_mem _ _ hne, rfl, rfl, rfl, rfl, rfl, rfl, rfl⟩

theorem notInGen_spec (nonmoneyF : List Nat) (hne : nonmoneyF ≠ []) (st : MTState) :
    ∃ t ∈ nonmoneyF, (notInGen nonmoneyF st).1 = { not_in := some t } :=
  ⟨(pyChoice nonmoneyF st).1, pyChoice_mem _ _ hne, rfl⟩

theorem lookInGen_spec (clueF : List Nat) (hne : clueF ≠ []) (st : MTState) :
    ∃ t ∈ clueF, (lookInGen clueF st).1 = { look_in := some t } :=
  ⟨(pyChoice clueF st).1, pyChoice_mem _ _ hne, rfl⟩

theorem noteAt_of_all_none (furn : List Furniture)
    (h : ∀ f ∈ furn, f.note = none) (c : Nat) : noteAt furn c = none := by
  unfold noteAt
  cases hf : furn.find? (fun f => f.code == c) with
  | none => rfl
  | some f => exact h f (List.mem_of_find?_eq_some hf)

theorem findFurniture_some (rooms : List Room) (c : Nat)
    (hc : c ∈ allFurn rooms) :
    ∃ room, findFurniture rooms c = some room ∧ room ∈ rooms ∧ c ∈ room.furniture := by
  obtain ⟨r, hr, hcr⟩ := List.mem_flatMap.mp hc
  have hsome : (rooms.find? (fun a => a.furniture.contains c)).isSome :=
    List.find?_isSome.mpr ⟨r, hr, List.elem_eq_true_of_mem hcr⟩
  obtain ⟨r0, hr0⟩ := Option.isSome_iff_exists.mp hsome
  have hp := List.find?_some hr0
  exact ⟨r0, hr0, List.mem_of_find?_eq_some hr0, List.mem_of_elem_eq_true hp⟩

end Mansion

namespace Mansion

open PyRandom

/-- Full specification of `build_notes` on valid inputs: it succeeds and
produces exactly the note groups of the source, each attached to a distinct
popped piece: 9 untouched pieces, 4 look-in hints, 6 not-in hints, the
combined ask+clue note, 2 secret hints, the trapdoor, 11 plain clues, and
the money note, whose room is recorded and excluded from secret hints. -/
theorem buildNotes_spec (furn0 : List Furniture) (rooms : List Room) (st : MTState)
    (hfc : furn0.map (fun f => f.code) = furnitureCodes)
    (hnotes : ∀ f ∈ furn0, f.note = none)
    (hpart : (allFurn rooms).Perm furnitureCodes)
    (hcodes : rooms.map (fun r => r.code) = roomNumbers) :
    ∃ (furn' : List Furniture) (keep lookinS notinS secretsS cluesS : List Nat)
      (combC trapC moneyC : Nat) (mroom : Room),
      buildNotes furn0 rooms st = some furn' ∧
      furn'.map (fun f => f.code) = furnitureCodes ∧
      furn'.map (fun f => f.name) = furn0.map (fun f => f.name) ∧
      ((keep ++ lookinS ++ notinS ++ [combC] ++ secretsS ++ [trapC] ++ cluesS
        ++ [moneyC]).Perm furnitureCodes) ∧
      keep.length = 9 ∧ lookinS.length = 4 ∧ notinS.length = 6 ∧
      secretsS.length = 2 ∧ cluesS.length = 11 ∧
      findFurniture rooms moneyC = some mroom ∧ mroom ∈ rooms ∧
      moneyC ∈ mroom.furniture ∧
      (∃ nm : Note, noteAt furn' moneyC = some nm ∧ nm.money = true ∧
        nm.ask = true ∧ nm.clue = false ∧ nm.trapdoor = false ∧
        nm.secret = none ∧ nm.not_in = none ∧ nm.look_in = none) ∧
      (∀ c ∈ cluesS, noteAt furn' c = some clueNote) ∧
      (noteAt furn' trapC = some { trapdoor := true }) ∧
      (∀ c ∈ secretsS, ∃ nt : Note, noteAt furn' c = some nt ∧ nt.money = false ∧
        nt.ask = true ∧ nt.clue = false ∧ nt.trapdoor = false ∧ nt.not_in = none ∧
        nt.look_in = none ∧
        ∃ r ∈ rooms.eraseP (fun a => a.code == mroom.code),
          nt.secret = some ("The money is not in the " ++ r.name ++ ".")) ∧
      (∃ nc : Note, noteAt furn' combC = some nc ∧ nc.money = false ∧
        nc.ask = true ∧ nc.clue = true ∧ nc.trapdoor = false ∧
        nc.secret = none ∧ nc.not_in = none ∧ nc.look_in = none) ∧
      (∀ c ∈ notinS, ∃ t, t ∈ furnitureCodes.erase moneyC ∧
        noteAt furn' c = some { not_in := some t }) ∧
      (∀ c ∈ lookinS, ∃ t, t ∈ cluesS ∧
        noteAt furn' c = some { look_in := some t }) ∧
      (∀ c ∈ keep, noteAt furn' c = none) := by
  -- the initial shuffle of all 35 codes
  set s := (pyShuffle (furn0.map (fun f => f.code)) st).1 with hsdef
  set stA := (pyShuffle (furn0.map (fun f => f.code)) st).2 with hstAdef
  have hsperm0 : s.Perm furnitureCodes := by
    rw [← hfc]
    exact pyShuffle_perm _ st
  have hslen : s.length = 35 := hsperm0.length_eq.trans furnitureCodes_length
  have hsnd : s.Nodup := hsperm0.nodup_iff.mpr furnitureCodes_nodup
  have hssub : ∀ c ∈ s, c ∈ furn0.map (fun f => f.code) := by
    intro c hc
    rw [hfc]
    exact hsperm0.subset hc
  -- pop the money piece
  obtain ⟨moneyC, ftu1, hpop1, hpe1⟩ := popLast?_spec s
    (by intro h; rw [h] at hslen; simp at hslen)
  have hlen1 : ftu1.length = 34 := by
    have := congrArg List.length hpe1
    simp at this
    omega
  have hmoneyMemS : moneyC ∈ s := by rw [hpe1]; simp
  have hmoneyCat : moneyC ∈ furnitureCodes := hsperm0.subset hmoneyMemS
  have hmoneyAll : moneyC ∈ allFurn rooms := hpart.mem_iff.mpr hmoneyCat
  obtain ⟨mroom, hfind, hmroomMem, hmoneyIn⟩ := findFurniture_some rooms moneyC hmoneyAll
  -- the item and person asked about on the money note
  rcases hit1 : pyChoice items stA with ⟨it, stB⟩
  rcases hpe1' : pyChoice people stB with ⟨pe, stC⟩
  set furnA := setNote furn0 moneyC
    (some { money := true, ask := true, item := some it, person := some pe }) with hfurnA
  have hfcA : furnA.map (fun f => f.code) = furnitureCodes :=
    (setNote_map_code _ _ _).trans hfc
  -- the non-money furniture and rooms
  set nonmoneyF := (furnA.map (fun f => f.code)).erase moneyC with hnmF
  have hnmFval : nonmoneyF = furnitureCodes.erase moneyC := by rw [hnmF, hfcA]
  set nonmoneyR := rooms.eraseP (fun r => r.code == mroom.code) with hnmR
  have hnmRne : nonmoneyR ≠ [] := by
    have h11 : (11 : Nat) ∈ rooms.map (fun r => r.code) := by rw [hcodes]; decide
    have h12 : (12 : Nat) ∈ rooms.map (fun r => r.code) := by rw [hcodes]; decide
    obtain ⟨r11, hr11, hr11c⟩ := List.mem_map.mp h11
    obtain ⟨r12, hr12, hr12c⟩ := List.mem_map.mp h12
    by_cases hm : mroom.code = 11
    · have hne : ¬((fun r : Room => r.code == mroom.code) r12) = true := by
        simp [hr12c, hm]
      have : r12 ∈ nonmoneyR :=
        (@List.mem_eraseP_of_neg Room (fun r => r.code == mroom.code) r12 rooms hne).mpr hr12
      exact List.ne_nil_of_mem this
    · have hne : ¬((fun r : Room => r.code == mroom.code) r11) = true := by
        simp only [hr11c, beq_iff_eq]
        exact fun h => hm h.symm
      have : r11 ∈ nonmoneyR :=
        (@List.mem_eraseP_of_neg Room (fun r => r.code == mroom.code) r11 rooms hne).mpr hr11
      exact List.ne_nil_of_mem this
  -- the clue loop
  have hnd1 : ftu1.Nodup := by
    rw [hpe1] at hsnd
    exact (List.nodup_append.mp hsnd).1
  have hsub1 : ∀ c ∈ ftu1, c ∈ furnA.map (fun f => f.code) := by
    intro c hc
    rw [hfcA]
    exact hsperm0.subset (by rw [hpe1]; exact List.mem_append.mpr (Or.inl hc))
  obtain ⟨furnB, hclueEq, hcodeB, hnameB, hclueSet, hclueKeep⟩ :=
    clueLoop_spec 11 ftu1 furnA [] (by omega) hnd1 hsub1
  set ftu2 := ftu1.take (ftu1.length - 11) with hftu2
  set cluesS := ftu1.drop (ftu1.length - 11) with hcluesS
  have hlen2 : ftu2.length = 23 := by
    rw [hftu2, List.length_take]
    omega
  have hcluesLen : cluesS.length = 11 := by
    rw [hcluesS, List.length_drop]
    omega
  have hpe2split : ftu1 = ftu2 ++ cluesS := (List.take_append_drop _ ftu1).symm
  -- the trapdoor pop
  obtain ⟨trapC, ftu3, hpop2, hpe2⟩ := popLast?_spec ftu2
    (by intro h; rw [h] at hlen2; simp at hlen2)
  have hlen3 : ftu3.length = 22 := by
    have := congrArg List.length hpe2
    simp at this
    omega
  set furnC := setNote furnB trapC (some { trapdoor := true }) with hfurnC
  have hcodeC : furnC.map (fun f => f.code) = furnitureCodes :=
    (setNote_map_code _ _ _).trans (hcodeB.trans hfcA)
  -- the secret-note loop
  have hnd2 : ftu2.Nodup := List.Nodup.sublist (List.take_sublist _ _) hnd1
  have hnd3 : ftu3.Nodup := by
    rw [hpe2] at hnd2
    exact (List.nodup_append.mp hnd2).1
  have hsub3 : ∀ c ∈ ftu3, c ∈ furnC.map (fun f => f.code) := by
    intro c hc
    rw [hcodeC]
    have : c ∈ ftu1 := by
      rw [hpe2split, hpe2]
      simp [hc]
    rw [← hfcA]
    exact hsub1 c this
  obtain ⟨furnD, stD, hsecEq, hcodeD, hnameD, hsecSet, hsecKeep⟩ :=
    popAssignLoop_spec (secretGen nonmoneyR)
      (fun nt => nt.money = false ∧ nt.ask = true ∧ nt.clue = false ∧
        nt.trapdoor = false ∧ nt.not_in = none ∧ nt.look_in = none ∧
        ∃ r ∈ nonmoneyR, nt.secret = some ("The money is not in the " ++ r.name ++ "."))
      (by
        intro st'
        obtain ⟨r, hrm, h1, h2, h3, h4, h5, h6, h7⟩ := secretGen_spec nonmoneyR hnmRne st'
        exact ⟨h1, h2, h3, h4, h5, h6, r, hrm, h7⟩)
      2 ftu3 furnC stC (by omega) hnd3 hsub3
  set ftu4 := ftu3.take (ftu3.length - 2) with hftu4
  set secretsS := ftu3.drop (ftu3.length - 2) with hsecretsS
  have hlen4 : ftu4.length = 20 := by
    rw [hftu4, List.length_take]
    omega
  have hsecLen : secretsS.length = 2 := by
    rw [hsecretsS, List.length_drop]
    omega
  have hpe3split : ftu3 = ftu4 ++ secretsS := (List.take_append_drop _ ftu3).symm
  -- the combined ask+clue note
  rcases hit2 : pyChoice items stD with ⟨it2, stE⟩
  rcases hpe2' : pyChoice people stE with ⟨pe2, stF⟩
  obtain ⟨combC, ftu5, hpop3, hpe4⟩ := popLast?_spec ftu4
    (by intro h; rw [h] at hlen4; simp at hlen4)
  have hlen5 : ftu5.length = 19 := by
    have := congrArg List.length hpe4
    simp at this
    omega
  set furnE := setNote furnD combC
    (some { ask := true, item := some it2, person := some pe2, clue := true }) with hfurnE
  have hcodeE : furnE.map (fun f => f.code) = furnitureCodes :=
    (setNote_map_code _ _ _).trans (hcodeD.trans hcodeC)
  -- the not-in loop
  have hnd4 : ftu4.Nodup := List.Nodup.sublist (List.take_sublist _ _) hnd3
  have hnd5 : ftu5.Nodup := by
    rw [hpe4] at hnd4
    exact (List.nodup_append.mp hnd4).1
  have hsub5 : ∀ c ∈ ftu5, c ∈ furnE.map (fun f => f.code) := by
    intro c hc
    rw [hcodeE, ← hcodeC]
    apply hsub3
    rw [hpe3split, hpe4]
    simp [hc]
  have hnmFne : nonmoneyF ≠ [] := by
    rw [hnmFval]
    have h111 : (111 : Nat) ∈ furnitureCodes := by decide
    have h112 : (112 : Nat) ∈ furnitureCodes := by decide
    by_cases hm : moneyC = 111
    · have : (112 : Nat) ∈ furnitureCodes.erase moneyC := by
        apply List.mem_erase_of_ne (by omega) |>.mpr h112
      exact List.ne_nil_of_mem this
    · have : (111 : Nat) ∈ furnitureCodes.erase moneyC := by
        apply List.mem_erase_of_ne (fun h => hm h.symm) |>.mpr h111
      exact List.ne_nil_of_mem this
  obtain ⟨furnF, stG, hnotinEq, hcodeF, hnameF, hnotinSet, hnotinKeep⟩ :=
    popAssignLoop_spec (notInGen nonmoneyF)
      (fun nt => ∃ t, t ∈ furnitureCodes.erase moneyC ∧ nt = { not_in := some t })
      (by
        intro st'
        obtain ⟨t, htm, hteq⟩ := notInGen_spec nonmoneyF hnmFne st'
        exact ⟨t, hnmFval ▸ htm, hteq⟩)
      6 ftu5 furnE stF (by omega) hnd5 hsub5
  set ftu6 := ftu5.take (ftu5.length - 6) with hftu6
  set notinS := ftu5.drop (ftu5.length - 6) with hnotinS
  have hlen6 : ftu6.length = 13 := by
    rw [hftu6, List.length_take]
    omega
  have hnotinLen : notinS.length = 6 := by
    rw [hnotinS, List.length_drop]
    omega
  have hpe5split : ftu5 = ftu6 ++ notinS := (List.take_append_drop _ ftu5).symm
  -- the look-in loop
  set clueF := ([] : List Nat) ++ cluesS.reverse with hclueF
  have hclueFne : clueF ≠ [] := by
    rw [hclueF]
    simp only [List.nil_append, ne_eq, List.reverse_eq_nil_iff]
    intro h
    rw [h] at hcluesLen
    simp at hcluesLen
  have hnd6 : ftu6.Nodup := List.Nodup.sublist (List.take_sublist _ _) hnd5
  have hsub6 : ∀ c ∈ ftu6, c ∈ furnF.map (fun f => f.code) := by
    intro c hc
    rw [hcodeF, hcodeE, ← hcodeC]
    apply hsub3
    rw [hpe3split, hpe4]
    have : c ∈ ftu5 := by rw [hpe5split]; simp [hc]
    simp [this]
  obtain ⟨furnG, stH, hlookinEq, hcodeG, hnameG, hlookinSet, hlookinKeep⟩ :=
    popAssignLoop_spec (lookInGen clueF)
      (fun nt => ∃ t, t ∈ cluesS ∧ nt = { look_in := some t })
      (by
        intro st'
        obtain ⟨t, htm, hteq⟩ := lookInGen_spec clueF hclueFne st'
        refine ⟨t, ?_, hteq⟩
        rw [hclueF] at htm
        simpa using htm)
      4 ftu6 furnF stG (by omega) hnd6 hsub6
  set keep := ftu6.take (ftu6.length - 4) with hkeep
  set lookinS := ftu6.drop (ftu6.length - 4) with hlookinS
  have hkeepLen : keep.length = 9 := by
    rw [hkeep, List.length_take]
    omega
  have hlookinLen : lookinS.length = 4 := by
    rw [hlookinS, List.length_drop]
    omega
  have hpe6split : ftu6 = keep ++ lookinS := (List.take_append_drop _ ftu6).symm
  -- assemble the final equality of buildNotes
  have hbn : buildNotes furn0 rooms st = some furnG := by
    have hsh : pyShuffle (furn0.map (fun f => f.code)) st = (s, stA) := rfl
    unfold buildNotes
    simp only [hsh, hpop1, hfind, hit1, hpe1', Option.bind_eq_bind, Option.some_bind,
      ← hfurnA, ← hnmF,
      ← hnmR, hclueEq, ← hftu2, hpop2, ← hfurnC, hsecEq, ← hftu4, hit2, hpe2', hpop3,
      ← hfurnE, hnotinEq, ← hftu6, ← hcluesS, ← hclueF, hlookinEq]

  -- inclusion chain between the successive stacks
  have hsub21 : ∀ c ∈ ftu2, c ∈ ftu1 := fun c hc => (List.take_sublist _ ftu1).subset hc
  have hsub32 : ∀ c ∈ ftu3, c ∈ ftu2 := fun c hc => by
    rw [hpe2]; exact List.mem_append.mpr (Or.inl hc)
  have hsub43 : ∀ c ∈ ftu4, c ∈ ftu3 := fun c hc => (List.take_sublist _ ftu3).subset hc
  have hsub54 : ∀ c ∈ ftu5, c ∈ ftu4 := fun c hc => by
    rw [hpe4]; exact List.mem_append.mpr (Or.inl hc)
  have hsub65 : ∀ c ∈ ftu6, c ∈ ftu5 := fun c hc => (List.take_sublist _ ftu5).subset hc
  have hsub42 : ∀ c ∈ ftu4, c ∈ ftu2 := fun c hc => hsub32 c (hsub43 c hc)
  have hsub52 : ∀ c ∈ ftu5, c ∈ ftu2 := fun c hc => hsub42 c (hsub54 c hc)
  have hsub62 : ∀ c ∈ ftu6, c ∈ ftu2 := fun c hc => hsub52 c (hsub65 c hc)
  -- memberships of the popped codes and segments
  have hclues_in1 : ∀ c ∈ cluesS, c ∈ ftu1 := fun c hc => List.drop_subset _ ftu1 hc
  have htrap_in2 : trapC ∈ ftu2 := by rw [hpe2]; simp
  have hsecrets_in3 : ∀ c ∈ secretsS, c ∈ ftu3 := fun c hc => List.drop_subset _ ftu3 hc
  have hcomb_in4 : combC ∈ ftu4 := by rw [hpe4]; simp
  have hnotin_in5 : ∀ c ∈ notinS, c ∈ ftu5 := fun c hc => List.drop_subset _ ftu5 hc
  have hlookin_in6 : ∀ c ∈ lookinS, c ∈ ftu6 := fun c hc => List.drop_subset _ ftu6 hc
  have hkeep_in6 : ∀ c ∈ keep, c ∈ ftu6 := fun c hc => (List.take_sublist _ ftu6).subset hc
  -- disjointness facts from the no-duplicates shuffle
  have hmoney_not1 : moneyC ∉ ftu1 := by
    rw [hpe1] at hsnd
    have hd := (List.nodup_append.mp hsnd).2.2
    intro hm
    exact hd hm (by simp)
  have hdisj_cl : ∀ c ∈ cluesS, c ∉ ftu2 := by
    have h := hpe2split ▸ hnd1
    have hd := (List.nodup_append.mp h).2.2
    intro c hc hc2
    exact hd hc2 hc
  have htrap_not3 : trapC ∉ ftu3 := by
    have h := hpe2 ▸ hnd2
    have hd := (List.nodup_append.mp h).2.2
    intro hm
    exact hd hm (by simp)
  have hdisj_sec : ∀ c ∈ secretsS, c ∉ ftu4 := by
    have h := hpe3split ▸ hnd3
    have hd := (List.nodup_append.mp h).2.2
    intro c hc hc2
    exact hd hc2 hc
  have hcomb_not5 : combC ∉ ftu5 := by
    have h := hpe4 ▸ hnd4
    have hd := (List.nodup_append.mp h).2.2
    intro hm
    exact hd hm (by simp)
  have hdisj_ni : ∀ c ∈ notinS, c ∉ ftu6 := by
    have h := hpe5split ▸ hnd5
    have hd := (List.nodup_append.mp h).2.2
    intro c hc hc2
    exact hd hc2 hc
  have hdisj_keep_li : ∀ c ∈ keep, c ∉ lookinS := by
    have h := hpe6split ▸ hnd6
    have hd := (List.nodup_append.mp h).2.2
    intro c hc hc2
    exact hd hc hc2
  -- single-stage preservation, top-down
  have hED : ∀ c, c ≠ combC → noteAt furnE c = noteAt furnD c := by
    intro c hc
    rw [hfurnE]
    exact noteAt_setNote_ne furnD combC c _ hc
  have hCB : ∀ c, c ≠ trapC → noteAt furnC c = noteAt furnB c := by
    intro c hc
    rw [hfurnC]
    exact noteAt_setNote_ne furnB trapC c _ hc
  -- membership of every code of `s` in the catalog-keyed furniture lists
  have hinB : ∀ c, c ∈ furnitureCodes → c ∈ furnB.map (fun f => f.code) := by
    intro c hc
    rw [hcodeB, hfcA]
    exact hc
  -- the money note
  have hmoneyA : noteAt furnA moneyC
      = some { money := true, ask := true, item := some it, person := some pe } := by
    rw [hfurnA]
    exact noteAt_setNote_same furn0 moneyC _ (by rw [hfc]; exact hmoneyCat)
  have hmoneyG : noteAt furnG moneyC
      = some { money := true, ask := true, item := some it, person := some pe } := by
    have h6 : moneyC ∉ lookinS :=
      fun h => hmoney_not1 (hsub21 _ (hsub62 _ (hlookin_in6 _ h)))
    have h5 : moneyC ∉ notinS :=
      fun h => hmoney_not1 (hsub21 _ (hsub52 _ (hnotin_in5 _ h)))
    have h4 : moneyC ≠ combC :=
      fun he => hmoney_not1 (hsub21 _ (hsub42 _ (he ▸ hcomb_in4)))
    have h3 : moneyC ∉ secretsS :=
      fun h => hmoney_not1 (hsub21 _ (hsub32 _ (hsecrets_in3 _ h)))
    have h2 : moneyC ≠ trapC :=
      fun he => hmoney_not1 (hsub21 _ (he ▸ htrap_in2))
    have h1 : moneyC ∉ cluesS := fun h => hmoney_not1 (hclues_in1 _ h)
    rw [hlookinKeep moneyC h6, hnotinKeep moneyC h5, hED moneyC h4,
      hsecKeep moneyC h3, hCB moneyC h2, hclueKeep moneyC h1, hmoneyA]
  -- the clue notes
  have hclueG : ∀ c ∈ cluesS, noteAt furnG c = some clueNote := by
    intro c hc
    have hnot2 := hdisj_cl c hc
    have h6 : c ∉ lookinS := fun h => hnot2 (hsub62 _ (hlookin_in6 _ h))
    have h5 : c ∉ notinS := fun h => hnot2 (hsub52 _ (hnotin_in5 _ h))
    have h4 : c ≠ combC := fun he => hnot2 (hsub42 _ (he ▸ hcomb_in4))
    have h3 : c ∉ secretsS := fun h => hnot2 (hsub32 _ (hsecrets_in3 _ h))
    have h2 : c ≠ trapC := fun he => hnot2 (he ▸ htrap_in2)
    rw [hlookinKeep c h6, hnotinKeep c h5, hED c h4, hsecKeep c h3, hCB c h2]
    exact hclueSet c hc
  -- the trapdoor note
  have htrapG : noteAt furnG trapC = some { trapdoor := true } := by
    have h6 : trapC ∉ lookinS :=
      fun h => htrap_not3 (hsub43 _ (hsub54 _ (hsub65 _ (hlookin_in6 _ h))))
    have h5 : trapC ∉ notinS := fun h => htrap_not3 (hsub43 _ (hsub54 _ (hnotin_in5 _ h)))
    have h4 : trapC ≠ combC := fun he => htrap_not3 (hsub43 _ (he ▸ hcomb_in4))
    have h3 : trapC ∉ secretsS := fun h => htrap_not3 (hsecrets_in3 _ h)
    rw [hlookinKeep trapC h6, hnotinKeep trapC h5, hED trapC h4, hsecKeep trapC h3]
    rw [hfurnC]
    apply noteAt_setNote_same
    have htrapS : trapC ∈ s := by
      rw [hpe1]
      exact List.mem_append.mpr (Or.inl (hsub21 _ htrap_in2))
    exact hinB trapC (hsperm0.subset htrapS)
  -- the secret notes
  have hsecG : ∀ c ∈ secretsS, ∃ nt : Note, noteAt furnG c = some nt ∧
      nt.money = false ∧ nt.ask = true ∧ nt.clue = false ∧ nt.trapdoor = false ∧
      nt.not_in = none ∧ nt.look_in = none ∧
      ∃ r ∈ nonmoneyR, nt.secret = some ("The money is not in the " ++ r.name ++ ".") := by
    intro c hc
    have hnot4 := hdisj_sec c hc
    have h6 : c ∉ lookinS := fun h => hnot4 (hsub54 _ (hsub65 _ (hlookin_in6 _ h)))
    have h5 : c ∉ notinS := fun h => hnot4 (hsub54 _ (hnotin_in5 _ h))
    have h4 : c ≠ combC := fun he => hnot4 (he ▸ hcomb_in4)
    obtain ⟨nt, hP, hset⟩ := hsecSet c hc
    refine ⟨nt, ?_, hP.1, hP.2.1, hP.2.2.1, hP.2.2.2.1, hP.2.2.2.2.1, hP.2.2.2.2.2.1,
      hP.2.2.2.2.2.2⟩
    rw [hlookinKeep c h6, hnotinKeep c h5, hED c h4]
    exact hset
  -- the combined ask+clue note
  have hcombG : noteAt furnG combC
      = some { ask := true, item := some it2, person := some pe2, clue := true } := by
    have h6 : combC ∉ lookinS := fun h => hcomb_not5 (hsub65 _ (hlookin_in6 _ h))
    have h5 : combC ∉ notinS := fun h => hcomb_not5 (hnotin_in5 _ h)
    rw [hlookinKeep combC h6, hnotinKeep combC h5]
    rw [hfurnE]
    apply noteAt_setNote_same
    rw [hcodeD, hcodeC]
    exact hsperm0.subset (by
      rw [hpe1]
      exact List.mem_append.mpr (Or.inl (hsub21 _ (hsub42 _ hcomb_in4))))
  -- the not-in notes
  have hnotinG : ∀ c ∈ notinS, ∃ t, t ∈ furnitureCodes.erase moneyC ∧
      noteAt furnG c = some { not_in := some t } := by
    intro c hc
    have h6 : c ∉ lookinS := fun h => hdisj_ni c hc (hlookin_in6 _ h)
    obtain ⟨nt, ⟨t, htm, hteq⟩, hset⟩ := hnotinSet c hc
    refine ⟨t, htm, ?_⟩
    rw [hlookinKeep c h6, hset, hteq]
  -- the look-in notes
  have hlookinG : ∀ c ∈ lookinS, ∃ t, t ∈ cluesS ∧
      noteAt furnG c = some { look_in := some t } := by
    intro c hc
    obtain ⟨nt, ⟨t, htm, hteq⟩, hset⟩ := hlookinSet c hc
    exact ⟨t, htm, by rw [hset, hteq]⟩
  -- the untouched pieces
  have hkeepG : ∀ c ∈ keep, noteAt furnG c = none := by
    intro c hc
    have hc6 := hkeep_in6 c hc
    have h6 : c ∉ lookinS := hdisj_keep_li c hc
    have h5 : c ∉ notinS := fun h => hdisj_ni c h hc6
    have h4 : c ≠ combC := fun he => hcomb_not5 (he ▸ hsub65 _ hc6)
    have h3 : c ∉ secretsS := fun h => hdisj_sec c h (hsub54 _ (hsub65 _ hc6))
    have h2 : c ≠ trapC := fun he => htrap_not3 (he ▸ hsub43 _ (hsub54 _ (hsub65 _ hc6)))
    have h1 : c ∉ cluesS := fun h => hdisj_cl c h (hsub62 _ hc6)
    have h0 : c ≠ moneyC := fun he => hmoney_not1 (he ▸ hsub21 _ (hsub62 _ hc6))
    rw [hlookinKeep c h6, hnotinKeep c h5, hED c h4, hsecKeep c h3, hCB c h2,
      hclueKeep c h1]
    rw [hfurnA, noteAt_setNote_ne furn0 moneyC c _ h0]
    exact noteAt_of_all_none furn0 hnotes c
  -- the decomposition of the shuffled list
  have hdecomp : keep ++ lookinS ++ notinS ++ [combC] ++ secretsS ++ [trapC] ++ cluesS
      ++ [moneyC] = s := by
    rw [hpe1, hpe2split, hpe2, hpe3split, hpe4, hpe5split, hpe6split]
  refine ⟨furnG, keep, lookinS, notinS, secretsS, cluesS, combC, trapC, moneyC, mroom,
    hbn, hcodeG.trans (hcodeF.trans hcodeE), ?_, hdecomp ▸ hsperm0, hkeepLen,
    hlookinLen, hnotinLen, hsecLen, hcluesLen, hfind, hmroomMem, hmoneyIn,
    ⟨_, hmoneyG, rfl, rfl, rfl, rfl, rfl, rfl, rfl⟩, hclueG, htrapG, hsecG,
    ⟨_, hcombG, rfl, rfl, rfl, rfl, rfl, rfl, rfl⟩, hnotinG, hlookinG, hkeepG⟩
  calc furnG.map (fun f => f.name)
      = furnF.map (fun f => f.name) := hnameG
    _ = furnE.map (fun f => f.name) := hnameF
    _ = furnD.map (fun f => f.name) := by rw [hfurnE, setNote_map_name]
    _ = furnC.map (fun f => f.name) := hnameD
    _ = furnB.map (fun f => f.name) := by rw [hfurnC, setNote_map_name]
    _ = furnA.map (fun f => f.name) := hnameB
    _ = furn0.map (fun f => f.name) := by rw [hfurnA, setNote_map_name]


/-- Counting the members of a duplicate-free sub-collection inside a
duplicate-free list gives back its size. -/
theorem countP_mem_of_nodup (l t : List Nat) (hl : l.Nodup) (ht : t.Nodup)
    (hsub : ∀ x ∈ t, x ∈ l) :
    l.countP (fun c => decide (c ∈ t)) = t.length := by
  rw [List.countP_eq_length_filter]
  have hfn : (l.filter (fun c => decide (c ∈ t))).Nodup := hl.filter _
  have hperm : (l.filter (fun c => decide (c ∈ t))).Perm t := by
    apply List.Subperm.antisymm
    · apply hfn.subperm
      intro x hx
      have hm := List.mem_filter.mp hx
      simpa using hm.2
    · apply ht.subperm
      intro x hx
      exact List.mem_filter.mpr ⟨hsub x hx, by simpa⟩
  exact hperm.length_eq

/-- The room names are a projection of the skeleton. -/
theorem skeleton_map_name (rooms : List Room) :
    rooms.map (fun r => r.name) = (skeleton rooms).map (fun p => p.2.1) := by
  unfold skeleton
  rw [List.map_map]
  rfl

/-- The number of locked rooms is determined by the skeleton. -/
theorem skeleton_countP_locked (rooms : List Room) :
    rooms.countP (fun r => r.locked) = (skeleton rooms).countP (fun p => p.2.2) := by
  unfold skeleton
  rw [List.countP_map]
  rfl

/-- Rooms with equal skeletons match up code/name/locked componentwise. -/
theorem skeleton_mem {rooms rooms' : List Room} (h : skeleton rooms' = skeleton rooms) :
    ∀ r ∈ rooms', ∃ r2 ∈ rooms,
      r2.code = r.code ∧ r2.name = r.name ∧ r2.locked = r.locked := by
  intro r hr
  have h1 : (r.code, r.name, r.locked) ∈ skeleton rooms := by
    rw [← h]
    exact List.mem_map.mpr ⟨r, hr, rfl⟩
  obtain ⟨r2, hr2, he⟩ := List.mem_map.mp h1
  exact ⟨r2, hr2, congrArg (fun p => p.1) he, congrArg (fun p => p.2.1) he,
    congrArg (fun p => p.2.2) he⟩

/-- Master specification of `Game.__init__`: for every seed the pipeline
succeeds and the resulting game satisfies the structural invariants of room
building, locking, furnishing and note distribution. -/
theorem gameInit_spec (g : MTState) (seed : Int) :
    ∃ (game : Game) (keep lookinS notinS secretsS cluesS : List Nat)
      (combC trapC moneyC : Nat) (mroom : Room),
      gameInit g seed = some game ∧
      game.clues_found = 0 ∧
      game.rooms.length = 9 ∧
      game.rooms.map (fun r => r.code) = roomNumbers ∧
      ((game.rooms.map (fun r => r.name)).Perm
        (roomTemplates.map (fun r => r.name))) ∧
      (∀ r ∈ game.rooms, r.code = 11 → r.locked = false) ∧
      (game.rooms.countP (fun r => r.locked) = 1 ∨
        game.rooms.countP (fun r => r.locked) = 2) ∧
      ((allFurn game.rooms).Perm furnitureCodes) ∧
      (allFurn game.rooms).Nodup ∧
      (∀ r ∈ game.rooms, r.furniture.length = 3 ∨ r.furniture.length = 4) ∧
      (game.rooms.countP (fun r => r.furniture.length == 3) = 1) ∧
      game.furniture.map (fun f => f.code) = furnitureCodes ∧
      game.furniture.map (fun f => f.name) = buildFurniture.map (fun f => f.name) ∧
      ((keep ++ lookinS ++ notinS ++ [combC] ++ secretsS ++ [trapC] ++ cluesS
        ++ [moneyC]).Perm furnitureCodes) ∧
      keep.length = 9 ∧ lookinS.length = 4 ∧ notinS.length = 6 ∧
      secretsS.length = 2 ∧ cluesS.length = 11 ∧
      findFurniture game.rooms moneyC = some mroom ∧ mroom ∈ game.rooms ∧
      moneyC ∈ mroom.furniture ∧
      (∃ nm : Note, noteAt game.furniture moneyC = some nm ∧ nm.money = true ∧
        nm.ask = true ∧ nm.clue = false ∧ nm.trapdoor = false ∧
        nm.secret = none ∧ nm.not_in = none ∧ nm.look_in = none) ∧
      (∀ c ∈ cluesS, noteAt game.furniture c = some clueNote) ∧
      (noteAt game.furniture trapC = some { trapdoor := true }) ∧
      (∀ c ∈ secretsS, ∃ nt : Note, noteAt game.furniture c = some nt ∧
        nt.money = false ∧ nt.ask = true ∧ nt.clue = false ∧ nt.trapdoor = false ∧
        nt.not_in = none ∧ nt.look_in = none ∧
        ∃ r ∈ game.rooms.eraseP (fun a => a.code == mroom.code),
          nt.secret = some ("The money is not in the " ++ r.name ++ ".")) ∧
      (∃ nc : Note, noteAt game.furniture combC = some nc ∧ nc.money = false ∧
        nc.ask = true ∧ nc.clue = true ∧ nc.trapdoor = false ∧
        nc.secret = none ∧ nc.not_in = none ∧ nc.look_in = none) ∧
      (∀ c ∈ notinS, ∃ t, t ∈ furnitureCodes.erase moneyC ∧
        noteAt game.furniture c = some { not_in := some t }) ∧
      (∀ c ∈ lookinS, ∃ t, t ∈ cluesS ∧
        noteAt game.furniture c = some { look_in := some t }) ∧
      (∀ c ∈ keep, noteAt game.furniture c = none) := by
  obtain ⟨hcode1, hstrip1⟩ := buildRooms_spec (pySeed seed)
  rcases hbr : buildRooms (pySeed seed) with ⟨rooms1, st1⟩
  simp only [hbr] at hcode1 hstrip1
  have hunlock1 : ∀ r ∈ rooms1, r.locked = false := by
    intro r hr
    have h1 : (r.name, r.furniture, r.locked)
        ∈ roomTemplates.map (fun r => (r.name, r.furniture, r.locked)) :=
      hstrip1.subset (List.mem_map.mpr ⟨r, hr, rfl⟩)
    obtain ⟨t, ht, he⟩ := List.mem_map.mp h1
    have h2 := congrArg (fun p => p.2.2) he
    simp only at h2
    rw [← h2]
    exact roomTemplates_locked t ht
  have hfurnperm1 : (rooms1.map (fun r => r.furniture)).Perm
      (roomTemplates.map (fun r => r.furniture)) := by
    have h1 := hstrip1.map (fun p => p.2.1)
    rw [List.map_map, List.map_map] at h1
    exact h1
  obtain ⟨toLock, hndL, hlenL, hsubL, hlockEq⟩ := lockRooms_spec rooms1 st1 hcode1
  rcases hlr : lockRooms rooms1 st1 with ⟨rooms2, st2⟩
  simp only [hlr] at hlockEq
  have hcode2 : rooms2.map (fun r => r.code) = roomNumbers := by
    rw [hlockEq, List.map_map, ← hcode1]
    apply List.map_congr_left
    intro r _
    simp only [Function.comp_apply]
    split <;> rfl
  have hname2 : rooms2.map (fun r => r.name) = rooms1.map (fun r => r.name) := by
    rw [hlockEq, List.map_map]
    apply List.map_congr_left
    intro r _
    simp only [Function.comp_apply]
    split <;> rfl
  have hfurn2 : rooms2.map (fun r => r.furniture) = rooms1.map (fun r => r.furniture) := by
    rw [hlockEq, List.map_map]
    apply List.map_congr_left
    intro r _
    simp only [Function.comp_apply]
    split <;> rfl
  have hsub8 : ∀ x ∈ ([12, 13, 14, 21, 22, 23, 24, 31] : List Nat),
      x ∈ roomNumbers := by decide
  have hlocked2 : rooms2.countP (fun r => r.locked) = toLock.length := by
    rw [hlockEq, List.countP_map]
    have hB : ∀ r ∈ rooms1,
        ((fun r : Room => r.locked) ∘ (fun r : Room =>
          if r.code ∈ toLock then { r with locked := true } else r)) r
          = decide (r.code ∈ toLock) := by
      intro r hr
      simp only [Function.comp_apply]
      split
      · next hm => simp [hm]
      · next hm => simp [hunlock1 r hr, hm]
    have h1 : ∀ r ∈ rooms1,
        (((fun r : Room => r.locked) ∘ (fun r : Room =>
          if r.code ∈ toLock then { r with locked := true } else r)) r = true)
          ↔ (decide (r.code ∈ toLock) = true) := by
      intro r hr
      rw [hB r hr]
    rw [List.countP_congr h1]
    have h2 : rooms1.countP (fun r => decide (r.code ∈ toLock))
        = (rooms1.map (fun r => r.code)).countP (fun c => decide (c ∈ toLock)) := by
      rw [List.countP_map]
      rfl
    rw [h2, hcode1]
    exact countP_mem_of_nodup roomNumbers toLock (by decide) hndL
      (fun x hx => hsub8 x (hsubL x hx))
  have h11n : (11 : Nat) ∉ toLock := by
    intro h
    exact absurd (hsubL 11 h) (by decide)
  have hunlock2 : ∀ r ∈ rooms2, r.code = 11 → r.locked = false := by
    intro r hr h11
    rw [hlockEq] at hr
    obtain ⟨r1, hr1, he⟩ := List.mem_map.mp hr
    by_cases hm : r1.code ∈ toLock
    · rw [if_pos hm] at he
      have hc := congrArg (fun x : Room => x.code) he
      simp only at hc
      rw [h11] at hc
      exact absurd (hc ▸ hm) h11n
    · rw [if_neg hm] at he
      rw [← he]
      exact hunlock1 r1 hr1
  have hfurnperm2 : (rooms2.map (fun r => r.furniture)).Perm
      (roomTemplates.map (fun r => r.furniture)) := by
    rw [hfurn2]
    exact hfurnperm1
  obtain ⟨rooms3, st3, hfs, hskel, hpart3, hpartnd, hsizes, hone3, hlen9⟩ :=
    furnishSmart_spec rooms2 st2 hcode2 hfurnperm2
  have hcode3 : rooms3.map (fun r => r.code) = roomNumbers := by
    rw [skeleton_map_code, hskel, ← skeleton_map_code]
    exact hcode2
  have hname3 : rooms3.map (fun r => r.name) = rooms2.map (fun r => r.name) := by
    rw [skeleton_map_name, hskel, ← skeleton_map_name]
  have hnameperm3 : (rooms3.map (fun r => r.name)).Perm
      (roomTemplates.map (fun r => r.name)) := by
    rw [hname3, hname2]
    have h1 := hstrip1.map (fun p => p.1)
    rw [List.map_map, List.map_map] at h1
    exact h1
  have hlock3 : rooms3.countP (fun r => r.locked) = toLock.length := by
    rw [skeleton_countP_locked, hskel, ← skeleton_countP_locked]
    exact hlocked2
  have hunlock3 : ∀ r ∈ rooms3, r.code = 11 → r.locked = false := by
    intro r hr h11
    obtain ⟨r2, hr2, hc, _, hl⟩ := skeleton_mem hskel r hr
    rw [← hl]
    exact hunlock2 r2 hr2 (hc.trans h11)
  obtain ⟨furn', keep, lookinS, notinS, secretsS, cluesS, combC, trapC, moneyC, mroom,
    hbnEq, hfcode, hfname, hsegperm, hkeepL, hlookL, hnotinL, hsecL, hclueL,
    hfindM, hmroomM, hmoneyF, hmoneyN, hclueN, htrapN, hsecN, hcombN, hnotinN,
    hlookinN, hkeepN⟩ :=
    buildNotes_spec buildFurniture rooms3 st3 buildFurniture_map_code
      buildFurniture_notes_none hpart3 hcode3
  have hg : gameInit g seed
      = some { furniture := furn', rooms := rooms3, clues_found := 0 } := by
    delta gameInit
    simp only [hbr, hlr, hfs, hbnEq, Option.some_bind]
  refine ⟨⟨furn', rooms3, 0⟩, keep, lookinS, notinS, secretsS, cluesS, combC, trapC,
    moneyC, mroom, hg, rfl, hlen9, hcode3, hnameperm3, hunlock3, ?_, hpart3,
    hpartnd, hsizes, hone3, hfcode, hfname, hsegperm, hkeepL, hlookL, hnotinL,
    hsecL, hclueL, hfindM, hmroomM, hmoneyF, hmoneyN, hclueN, htrapN, hsecN,
    hcombN, hnotinN, hlookinN, hkeepN⟩
  show rooms3.countP (fun r => r.locked) = 1 ∨ rooms3.countP (fun r => r.locked) = 2
  rw [hlock3]
  exact hlenL

/-- C2: scenario generation is a pure function of the seed.  `Game.__init__`
re-seeds the global generator from the seed alone, discarding whatever state
it held; two runs with the same seed therefore produce identical scenarios
(same rooms, locks, furniture placement, notes, and money room). -/
theorem claim_C2 (g1 g2 : MTState) (seed : Int) :
    gameInit g1 seed = gameInit g2 seed := rfl

/-- C3: for every seed, furnishing succeeds and leaves every one of the 9
rooms with 3 or 4 furniture pieces, exactly one room with 3, a total of 35
placed pieces, and no code in more than one room (the rooms partition the
full catalog). -/
theorem claim_C3 (g : MTState) (seed : Int) :
    ∃ game : Game, gameInit g seed = some game ∧
      game.rooms.length = 9 ∧
      (∀ r ∈ game.rooms, r.furniture.length = 3 ∨ r.furniture.length = 4) ∧
      game.rooms.countP (fun r => r.furniture.length == 3) = 1 ∧
      (allFurn game.rooms).length = 35 ∧
      (allFurn game.rooms).Nodup ∧
      ((allFurn game.rooms).Perm furnitureCodes) := by
  obtain ⟨game, keep, lookinS, notinS, secretsS, cluesS, combC, trapC, moneyC, mroom,
    hg, _, hlen9, _, _, _, _, hpart, hpartnd, hsizes, hone, _, _, _, _, _, _, _, _,
    _, _, _, _, _, _, _, _, _, _, _⟩ := gameInit_spec g seed
  exact ⟨game, hg, hlen9, hsizes, hone,
    hpart.length_eq.trans furnitureCodes_length, hpartnd, hpart⟩

/-- C5: for every seed, the entrance room (code 11) is never locked, the
number of locked rooms is exactly 1 or 2, and every locked room's code comes
from the 8 non-entrance codes. -/
theorem claim_C5 (g : MTState) (seed : Int) :
    ∃ game : Game, gameInit g seed = some game ∧
      (∀ r ∈ game.rooms, r.code = 11 → r.locked = false) ∧
      (game.rooms.countP (fun r => r.locked) = 1 ∨
        game.rooms.countP (fun r => r.locked) = 2) ∧
      (∀ r ∈ game.rooms, r.locked = true →
        r.code ∈ ([12, 13, 14, 21, 22, 23, 24, 31] : List Nat)) := by
  obtain ⟨game, keep, lookinS, notinS, secretsS, cluesS, combC, trapC, moneyC, mroom,
    hg, _, _, hcode, _, hunlock, hlockcnt, _, _, _, _, _, _, _, _, _, _, _, _, _,
    _, _, _, _, _, _, _, _, _, _⟩ := gameInit_spec g seed
  refine ⟨game, hg, hunlock, hlockcnt, ?_⟩
  intro r hr hlocked
  have hmem : r.code ∈ roomNumbers := by
    rw [← hcode]
    exact List.mem_map_of_mem _ hr
  have hne : r.code ≠ 11 := by
    intro h
    have h2 := hunlock r hr h
    rw [hlocked] at h2
    simp at h2
  have hstep : ∀ c ∈ roomNumbers, c ≠ 11 →
      c ∈ ([12, 13, 14, 21, 22, 23, 24, 31] : List Nat) := by decide
  exact hstep _ hmem hne

/-- C1: for every seed, note distribution succeeds and assigns, over the 35
furniture pieces: exactly 1 money note, 11 plain clue notes, 1 trapdoor note,
2 secret-hint notes, 1 combined ask+clue note, 6 not-in hints and 4 look-in
hints, with the remaining 9 pieces carrying no note; each piece carries at
most one note (its single optional note field), and the counts sum to 35. -/
theorem claim_C1 (g : MTState) (seed : Int) :
    ∃ game : Game, gameInit g seed = some game ∧
      game.furniture.length = 35 ∧
      countKind game.furniture .money = 1 ∧
      countKind game.furniture .clue = 11 ∧
      countKind game.furniture .trapdoor = 1 ∧
      countKind game.furniture .secretHint = 2 ∧
      countKind game.furniture .askClue = 1 ∧
      countKind game.furniture .notInHint = 6 ∧
      countKind game.furniture .lookInHint = 4 ∧
      countKind game.furniture .empty = 9 ∧
      countKind game.furniture .money + countKind game.furniture .clue
        + countKind game.furniture .trapdoor + countKind game.furniture .secretHint
        + countKind game.furniture .askClue + countKind game.furniture .notInHint
        + countKind game.furniture .lookInHint + countKind game.furniture .empty
        = 35 := by
  obtain ⟨game, keep, lookinS, notinS, secretsS, cluesS, combC, trapC, moneyC, mroom,
    hg, _, _, _, _, _, _, _, _, _, _, hfcode, _, hsegperm, hkeepL, hlookL, hnotinL,
    hsecL, hclueL, _, _, _, hmoneyN, hclueN, htrapN, hsecN, hcombN, hnotinN,
    hlookinN, hkeepN⟩ := gameInit_spec g seed
  have hlen35 : game.furniture.length = 35 := by
    have h1 := congrArg List.length hfcode
    rw [List.length_map, furnitureCodes_length] at h1
    exact h1
  have hndcodes : (game.furniture.map (fun f => f.code)).Nodup := by
    rw [hfcode]
    exact furnitureCodes_nodup
  have hkeepK : ∀ c ∈ keep,
      kindOf (noteAt game.furniture c) = NoteKind.empty := by
    intro c hc
    rw [hkeepN c hc]
    rfl
  have hlookK : ∀ c ∈ lookinS,
      kindOf (noteAt game.furniture c) = NoteKind.lookInHint := by
    intro c hc
    obtain ⟨t, _, heq⟩ := hlookinN c hc
    rw [heq]
    rfl
  have hnotinK : ∀ c ∈ notinS,
      kindOf (noteAt game.furniture c) = NoteKind.notInHint := by
    intro c hc
    obtain ⟨t, _, heq⟩ := hnotinN c hc
    rw [heq]
    rfl
  have hcombK : ∀ c ∈ [combC],
      kindOf (noteAt game.furniture c) = NoteKind.askClue := by
    intro c hc
    rw [List.mem_singleton] at hc
    subst hc
    obtain ⟨nc, heq, hm, ha, hcl, ht, _, _, _⟩ := hcombN
    rw [heq]
    unfold kindOf
    simp [hm, ha, hcl, ht]
  have hsecK : ∀ c ∈ secretsS,
      kindOf (noteAt game.furniture c) = NoteKind.secretHint := by
    intro c hc
    obtain ⟨nt, heq, hm, ha, hcl, ht, _, _, r, hr, hsec⟩ := hsecN c hc
    rw [heq]
    unfold kindOf
    simp [hm, ha, hcl, ht, hsec]
  have htrapK : ∀ c ∈ [trapC],
      kindOf (noteAt game.furniture c) = NoteKind.trapdoor := by
    intro c hc
    rw [List.mem_singleton] at hc
    subst hc
    rw [htrapN]
    rfl
  have hclueK : ∀ c ∈ cluesS,
      kindOf (noteAt game.furniture c) = NoteKind.clue := by
    intro c hc
    rw [hclueN c hc]
    rfl
  have hmoneyK : ∀ c ∈ [moneyC],
      kindOf (noteAt game.furniture c) = NoteKind.money := by
    intro c hc
    rw [List.mem_singleton] at hc
    subst hc
    obtain ⟨nm, heq, hm, _, _, _, _, _, _⟩ := hmoneyN
    rw [heq]
    unfold kindOf
    simp [hm]
  have hK : ∀ K : NoteKind, countKind game.furniture K
      = (if K = NoteKind.empty then (9:Nat) else 0)
      + (if K = NoteKind.lookInHint then 4 else 0)
      + (if K = NoteKind.notInHint then 6 else 0)
      + (if K = NoteKind.askClue then 1 else 0)
      + (if K = NoteKind.secretHint then 2 else 0)
      + (if K = NoteKind.trapdoor then 1 else 0)
      + (if K = NoteKind.clue then 11 else 0)
      + (if K = NoteKind.money then 1 else 0) := by
    intro K
    unfold countKind
    rw [map_kind_eq_map_noteAt _ hndcodes, hfcode,
      ← (hsegperm.map (fun c => kindOf (noteAt game.furniture c))).count_eq]
    simp only [List.map_append, List.count_append]
    rw [count_map_const_of_mem hkeepK K, count_map_const_of_mem hlookK K,
      count_map_const_of_mem hnotinK K, count_map_const_of_mem hcombK K,
      count_map_const_of_mem hsecK K, count_map_const_of_mem htrapK K,
      count_map_const_of_mem hclueK K, count_map_const_of_mem hmoneyK K]
    rw [hkeepL, hlookL, hnotinL, hsecL, hclueL]
    simp [List.length_singleton]
  refine ⟨game, hg, hlen35, ?_, ?_, ?_, ?_, ?_, ?_, ?_, ?_, ?_⟩ <;>
    simp [hK]

/-- C8: for every game state, exploring a room or furniture code outside the
known code sets reports the invalid-code outcome and returns the state
entirely unchanged, so the caller may retry. -/
theorem claim_C8 (game : Game) (code : Nat) (hasKey ansItem ansPerson : Bool)
    (hr : code ∉ game.rooms.map (fun r => r.code))
    (hf : code ∉ game.furniture.map (fun f => f.code)) :
    exploreRoom game code hasKey = (game, RoomOutcome.invalid) ∧
    exploreFurniture game code ansItem ansPerson = (game, NoteOutcome.invalid) := by
  constructor
  · unfold exploreRoom
    rw [find?_key_eq_none (fun r : Room => r.code) hr]
  · unfold exploreFurniture
    rw [find?_key_eq_none (fun f : Furniture => f.code) hf]

/-- C8 witness: the full catalog with no rooms, queried at the unknown code
999, reports invalid on both paths and is returned unchanged. -/
theorem claim_C8_witness :
    (999 ∉ (Game.mk buildFurniture [] 0).rooms.map (fun r => r.code)) ∧
    (999 ∉ (Game.mk buildFurniture [] 0).furniture.map (fun f => f.code)) ∧
    (exploreRoom (Game.mk buildFurniture [] 0) 999 true
      = (Game.mk buildFurniture [] 0, RoomOutcome.invalid) ∧
    exploreFurniture (Game.mk buildFurniture [] 0) 999 true true
      = (Game.mk buildFurniture [] 0, NoteOutcome.invalid)) :=
  ⟨by decide, by decide,
    claim_C8 (Game.mk buildFurniture [] 0) 999 true true true (by decide) (by decide)⟩

/-- C9: furniture search is a case-insensitive substring match over furniture
names, independent of room assignment; in every generated scenario, searching
"chair" returns both Dining Room Chairs (codes 111 and 112). -/
theorem claim_C9 (g : MTState) (seed : Int) :
    ∃ game : Game, gameInit g seed = some game ∧
      (∀ q f, f ∈ searchFurniture game q ↔
        f ∈ game.furniture ∧ strLower q <:+: strLower f.name) ∧
      (∃ f ∈ searchFurniture game "chair",
        f.code = 111 ∧ f.name = "Dining Room Chair #1 [111]") ∧
      (∃ f ∈ searchFurniture game "chair",
        f.code = 112 ∧ f.name = "Dining Room Chair #2 [112]") := by
  obtain ⟨game, keep, lookinS, notinS, secretsS, cluesS, combC, trapC, moneyC, mroom,
    hg, _, _, _, _, _, _, _, _, _, _, hfcode, hfname, _, _, _, _, _, _, _, _, _, _,
    _, _, _, _, _, _, _⟩ := gameInit_spec g seed
  have hpair : game.furniture.map (fun f => (f.code, f.name))
      = buildFurniture.map (fun f => (f.code, f.name)) := by
    rw [← List.zip_map' (fun f : Furniture => f.code) (fun f : Furniture => f.name)
      game.furniture, hfcode, hfname, ← buildFurniture_map_code]
    exact List.zip_map' _ _ _
  refine ⟨game, hg, ?_, ?_, ?_⟩
  · intro q f
    unfold searchFurniture
    simp [List.mem_filter]
  · have h111 : ((111 : Nat), "Dining Room Chair #1 [111]")
        ∈ game.furniture.map (fun f => (f.code, f.name)) := by
      rw [hpair]
      decide
    obtain ⟨f, hfm, he⟩ := List.mem_map.mp h111
    have hn : f.name = "Dining Room Chair #1 [111]" := congrArg (fun p => p.2) he
    refine ⟨f, List.mem_filter.mpr ⟨hfm, ?_⟩, congrArg (fun p => p.1) he, hn⟩
    rw [hn]
    decide
  · have h112 : ((112 : Nat), "Dining Room Chair #2 [112]")
        ∈ game.furniture.map (fun f => (f.code, f.name)) := by
      rw [hpair]
      decide
    obtain ⟨f, hfm, he⟩ := List.mem_map.mp h112
    have hn : f.name = "Dining Room Chair #2 [112]" := congrArg (fun p => p.2) he
    refine ⟨f, List.mem_filter.mpr ⟨hfm, ?_⟩, congrArg (fun p => p.1) he, hn⟩
    rw [hn]
    decide

/-- C6: in every generated scenario, each secret-hint text is built from a
room other than the room holding the money furniture (so it never names the
money room), and each not-in hint's referenced code is a non-money catalog
code (so it never names the money piece). -/
theorem claim_C6 (g : MTState) (seed : Int) :
    ∃ (game : Game) (moneyC : Nat) (mroom : Room),
      gameInit g seed = some game ∧
      findFurniture game.rooms moneyC = some mroom ∧ moneyC ∈ mroom.furniture ∧
      (∃ nm, noteAt game.furniture moneyC = some nm ∧ nm.money = true) ∧
      (∀ f ∈ game.furniture, ∀ nt, f.note = some nt →
        (∀ s, nt.secret = some s →
          ∃ r ∈ game.rooms, r.name ≠ mroom.name ∧
            s = "The money is not in the " ++ r.name ++ ".") ∧
        (∀ t, nt.not_in = some t → t ≠ moneyC ∧ t ∈ furnitureCodes)) := by
  obtain ⟨game, keep, lookinS, notinS, secretsS, cluesS, combC, trapC, moneyC, mroom,
    hg, _, _, hcode, hnameperm, _, _, _, _, _, _, hfcode, _, hsegperm, _, _, _, _, _,
    hfind, hmroomM, hmoneyF, hmoneyN, hclueN, htrapN, hsecN, hcombN, hnotinN,
    hlookinN, hkeepN⟩ := gameInit_spec g seed
  have hndcodes : (game.furniture.map (fun f => f.code)).Nodup := by
    rw [hfcode]
    exact furnitureCodes_nodup
  have hnoteeq : ∀ f ∈ game.furniture, noteAt game.furniture f.code = f.note := by
    intro f hf
    unfold noteAt
    rw [find?_key_of_nodup (fun a : Furniture => a.code) hndcodes hf]
  have hnamesnd : (game.rooms.map (fun r => r.name)).Nodup :=
    hnameperm.nodup_iff.mpr roomTemplates_names_nodup
  have hcodesnd : (game.rooms.map (fun r => r.code)).Nodup := by
    rw [hcode]
    exact roomNumbers_nodup
  have hname_ne : ∀ r ∈ game.rooms.eraseP (fun a => a.code == mroom.code),
      r.name ≠ mroom.name := by
    intro r hr hne
    have hrR : r ∈ game.rooms := List.mem_of_mem_eraseP hr
    have hreq : r = mroom :=
      List.inj_on_of_nodup_map hnamesnd hrR hmroomM hne
    subst hreq
    have hp : (fun a : Room => a.code == r.code) r = true := by simp
    obtain ⟨a', l₁, l₂, hnl, hpa, hre, herase⟩ :=
      @List.exists_of_eraseP Room (fun a => a.code == r.code) game.rooms r hmroomM hp
    have ha'R : a' ∈ game.rooms := by
      rw [hre]
      simp
    have ha'eq : a' = r :=
      List.inj_on_of_nodup_map hcodesnd ha'R hmroomM (by simpa using hpa)
    have hrooms_nd : game.rooms.Nodup := hnamesnd.of_map
    rw [herase] at hr
    rw [hre, ha'eq] at hrooms_nd
    rcases List.mem_append.mp hr with h1 | h2
    · have hd := (List.nodup_append.mp hrooms_nd).2.2
      exact hd h1 (by simp)
    · have h3 := (List.nodup_append.mp hrooms_nd).2.1
      exact (List.nodup_cons.mp h3).1 h2
  refine ⟨game, moneyC, mroom, hg, hfind, hmoneyF, ?_, ?_⟩
  · obtain ⟨nm, heq0, hm0, _, _, _, _, _, _⟩ := hmoneyN
    exact ⟨nm, heq0, hm0⟩
  intro f hf nt hnt
  have hcmem : f.code ∈ furnitureCodes := by
    rw [← hfcode]
    exact List.mem_map_of_mem _ hf
  have hdec : f.code ∈ keep ++ lookinS ++ notinS ++ [combC] ++ secretsS ++ [trapC]
      ++ cluesS ++ [moneyC] := hsegperm.mem_iff.mpr hcmem
  have hnoteC : noteAt game.furniture f.code = some nt := by
    rw [hnoteeq f hf, hnt]
  simp only [List.mem_append, List.mem_singleton] at hdec
  rcases hdec with (((((((hk | hl) | hn) | hc) | hsc) | ht) | hcl) | hmn)
  · rw [hkeepN _ hk] at hnoteC
    exact Option.noConfusion hnoteC
  · obtain ⟨t, htm, heq⟩ := hlookinN _ hl
    rw [heq] at hnoteC
    have hnteq := Option.some.inj hnoteC
    subst hnteq
    constructor
    · intro s hs
      simp at hs
    · intro t' ht'
      simp at ht'
  · obtain ⟨t, htm, heq⟩ := hnotinN _ hn
    rw [heq] at hnoteC
    have hnteq := Option.some.inj hnoteC
    subst hnteq
    constructor
    · intro s hs
      simp at hs
    · intro t' ht'
      have htt : t = t' := by simpa using ht'
      subst htt
      exact (List.Nodup.mem_erase_iff furnitureCodes_nodup).mp htm
  · obtain ⟨nc, heq, _, _, _, _, hsec0, hni0, _⟩ := hcombN
    rw [hc] at hnoteC
    have hnteq := Option.some.inj (heq.symm.trans hnoteC)
    subst hnteq
    constructor
    · intro s hs
      rw [hsec0] at hs
      exact Option.noConfusion hs
    · intro t' ht'
      rw [hni0] at ht'
      exact Option.noConfusion ht'
  · obtain ⟨nt0, heq, _, _, _, _, hni0, _, r, hrE, hsec0⟩ := hsecN _ hsc
    have hnteq := Option.some.inj (heq.symm.trans hnoteC)
    subst hnteq
    constructor
    · intro s' hs'
      have hseq := Option.some.inj (hsec0.symm.trans hs')
      exact ⟨r, List.mem_of_mem_eraseP hrE, hname_ne r hrE, hseq.symm⟩
    · intro t' ht'
      rw [hni0] at ht'
      exact Option.noConfusion ht'
  · rw [ht] at hnoteC
    have hnteq := Option.some.inj (htrapN.symm.trans hnoteC)
    subst hnteq
    constructor
    · intro s hs
      simp at hs
    · intro t' ht'
      simp at ht'
  · rw [hclueN _ hcl] at hnoteC
    have hnteq := Option.some.inj hnoteC
    subst hnteq
    constructor
    · intro s hs
      simp [clueNote] at hs
    · intro t' ht'
      simp [clueNote] at ht'
  · obtain ⟨nm, heq, _, _, _, _, hsec0, hni0, _⟩ := hmoneyN
    rw [hmn] at hnoteC
    have hnteq := Option.some.inj (heq.symm.trans hnoteC)
    subst hnteq
    constructor
    · intro s hs
      rw [hsec0] at hs
      exact Option.noConfusion hs
    · intro t' ht'
      rw [hni0] at ht'
      exact Option.noConfusion ht'

/-- A furniture piece that carries a note is in the furniture list. -/
theorem noteAt_mem_of_some {furn : List Furniture} {c : Nat} {nt : Note}
    (h : noteAt furn c = some nt) : c ∈ furn.map (fun f => f.code) := by
  unfold noteAt at h
  split at h
  next f hfind =>
    have hmem := List.mem_of_find?_eq_some hfind
    have hp := List.find?_some hfind
    have hfc : f.code = c := by simpa using hp
    rw [← hfc]
    exact List.mem_map_of_mem _ hmem
  next => exact Option.noConfusion h

/-- Exploring a piece that carries a pure clue note: the note's clue flag is
cleared, and the counter advances (with the "found a clue" outcome) exactly
while it is below 10, else the "take a clue from another player" outcome. -/
theorem exploreFurniture_clue (game : Game) (c : Nat) (ai ap : Bool)
    (h : noteAt game.furniture c = some clueNote) :
    exploreFurniture game c ai ap
      = (if game.clues_found < 10 then
          { game with
            furniture := setNote game.furniture c (some { clueNote with clue := false }),
            clues_found := game.clues_found + 1 }
        else
          { game with
            furniture := setNote game.furniture c (some { clueNote with clue := false }) },
        if game.clues_found < 10 then NoteOutcome.foundClue
        else NoteOutcome.takeClue) := by
  unfold noteAt at h
  unfold exploreFurniture
  split at h
  next f hfind =>
    simp only [hfind, h]
    simp [clueNote]
    split <;> rfl
  next => exact Option.noConfusion h

/-- Repeatedly exploring a list of furniture codes, answering yes to every
ask gate, collecting the outcomes in order. -/
def consumeClues (game : Game) : List Nat → Game × List NoteOutcome
  | [] => (game, [])
  | c :: rest =>
    let r := exploreFurniture game c true true
    let s := consumeClues r.1 rest
    (s.1, r.2 :: s.2)

/-- The outcome sequence of consuming `n` clue notes starting from counter
`cf`: "found a clue" while the counter is below 10, then "take a clue". -/
def expectedOutcomes : Nat → Nat → List NoteOutcome
  | _, 0 => []
  | cf, n + 1 =>
    (if cf < 10 then NoteOutcome.foundClue else NoteOutcome.takeClue)
      :: expectedOutcomes (min (cf + 1) 10) n

/-- Consuming distinct pure clue notes: each one's flag is cleared, every
other note is untouched, the counter saturates at 10, and the outcomes follow
`expectedOutcomes`. -/
theorem consumeClues_spec : ∀ (codes : List Nat) (game : Game), codes.Nodup →
    (∀ c ∈ codes, noteAt game.furniture c = some clueNote) →
    game.clues_found ≤ 10 →
    ∃ furn' : List Furniture,
      consumeClues game codes
        = ({ furniture := furn', rooms := game.rooms,
             clues_found := min (game.clues_found + codes.length) 10 },
           expectedOutcomes game.clues_found codes.length) ∧
      (∀ c ∈ codes, noteAt furn' c = some { clueNote with clue := false }) ∧
      (∀ c, c ∉ codes → noteAt furn' c = noteAt game.furniture c) := by
  intro codes
  induction codes with
  | nil =>
    intro game _ _ hcf
    refine ⟨game.furniture, ?_, by simp, fun c _ => rfl⟩
    have h1 : min (game.clues_found + List.length ([] : List Nat)) 10
        = game.clues_found := by
      simpa using Nat.min_eq_left hcf
    rw [h1]
    rfl
  | cons c rest ih =>
    intro game hnd hclue hcf
    have hstep := exploreFurniture_clue game c true true (hclue c (by simp))
    have hcmem : c ∈ game.furniture.map (fun f => f.code) :=
      noteAt_mem_of_some (hclue c (by simp))
    have hclue1 : ∀ c' ∈ rest,
        noteAt (setNote game.furniture c (some { clueNote with clue := false })) c'
          = some clueNote := by
      intro c' hc'
      rw [noteAt_setNote_ne game.furniture c c' _
        (fun he => (List.nodup_cons.mp hnd).1 (he ▸ hc'))]
      exact hclue c' (by simp [hc'])
    by_cases hlt : game.clues_found < 10
    · rw [if_pos hlt, if_pos hlt] at hstep
      obtain ⟨furn', heq, hflag, hkeep⟩ :=
        ih { furniture := setNote game.furniture c (some { clueNote with clue := false }),
             rooms := game.rooms, clues_found := game.clues_found + 1 }
          (List.nodup_cons.mp hnd).2 hclue1 (by show game.clues_found + 1 ≤ 10; omega)
      refine ⟨furn', ?_, ?_, ?_⟩
      · simp only [consumeClues, hstep, heq]
        have h1 : game.clues_found + 1 + rest.length
            = game.clues_found + (c :: rest).length := by
          simp
          omega
        have h2 : expectedOutcomes game.clues_found (c :: rest).length
            = NoteOutcome.foundClue
              :: expectedOutcomes (min (game.clues_found + 1) 10) rest.length := by
          simp only [List.length_cons, expectedOutcomes, if_pos hlt]
        have h3 : min (game.clues_found + 1) 10 = game.clues_found + 1 := by omega
        rw [h2, h3, h1]
      · intro c0 hc0
        rcases List.mem_cons.mp hc0 with rfl | hc0'
        · rw [hkeep c0 (List.nodup_cons.mp hnd).1]
          exact noteAt_setNote_same game.furniture c0 _ hcmem
        · exact hflag c0 hc0'
      · intro c0 hc0
        rw [hkeep c0 (fun h => hc0 (by simp [h]))]
        exact noteAt_setNote_ne game.furniture c c0 _ (fun he => hc0 (by simp [he]))
    · rw [if_neg hlt, if_neg hlt] at hstep
      have hcf10 : game.clues_found = 10 := by omega
      obtain ⟨furn', heq, hflag, hkeep⟩ :=
        ih { furniture := setNote game.furniture c (some { clueNote with clue := false }),
             rooms := game.rooms, clues_found := game.clues_found }
          (List.nodup_cons.mp hnd).2 hclue1 hcf
      refine ⟨furn', ?_, ?_, ?_⟩
      · simp only [consumeClues, hstep, heq]
        have h1 : min (game.clues_found + rest.length) 10
            = min (game.clues_found + (c :: rest).length) 10 := by
          simp
          omega
        have h2 : expectedOutcomes game.clues_found (c :: rest).length
            = NoteOutcome.takeClue
              :: expectedOutcomes (min (game.clues_found + 1) 10) rest.length := by
          simp only [List.length_cons, expectedOutcomes, if_neg hlt]
        have h3 : min (game.clues_found + 1) 10 = game.clues_found := by omega
        rw [h2, h3, h1]
      · intro c0 hc0
        rcases List.mem_cons.mp hc0 with rfl | hc0'
        · rw [hkeep c0 (List.nodup_cons.mp hnd).1]
          exact noteAt_setNote_same game.furniture c0 _ hcmem
        · exact hflag c0 hc0'
      · intro c0 hc0
        rw [hkeep c0 (fun h => hc0 (by simp [h]))]
        exact noteAt_setNote_ne game.furniture c c0 _ (fun he => hc0 (by simp [he]))

/-- C7: starting from a clue counter of 0, consuming 10 distinct pure clue
notes yields "found a clue" each time and raises the counter to exactly 10;
the 11th consumption yields "take a clue from another player", leaves the
counter at 10, and still clears that note's clue flag (all 11 flags end
cleared). -/
theorem claim_C7 (game : Game) (codes : List Nat)
    (hnd : codes.Nodup) (hlen : codes.length = 11)
    (hcf : game.clues_found = 0)
    (hclue : ∀ c ∈ codes, noteAt game.furniture c = some clueNote) :
    ∃ furn' : List Furniture,
      consumeClues game codes
        = ({ furniture := furn', rooms := game.rooms, clues_found := 10 },
           List.replicate 10 NoteOutcome.foundClue ++ [NoteOutcome.takeClue]) ∧
      ∀ c ∈ codes, noteAt furn' c = some { clueNote with clue := false } := by
  obtain ⟨furn', heq, hflag, _⟩ := consumeClues_spec codes game hnd hclue (by omega)
  refine ⟨furn', ?_, hflag⟩
  rw [heq, hcf, hlen]
  have h1 : expectedOutcomes 0 11
      = List.replicate 10 NoteOutcome.foundClue ++ [NoteOutcome.takeClue] := by
    decide
  rw [h1]
  norm_num

/-- A test scenario for the clue counter: 11 pieces, each carrying a pure
clue note, counter at 0. -/
def gameC7 : Game :=
  { furniture := (List.range 11).map
      (fun i => { name := "Test", code := i, note := some clueNote }),
    rooms := [], clues_found := 0 }

/-- C7 witness: consuming the 11 clue notes of `gameC7` gives ten
"found a clue" outcomes, then one "take a clue", ends with the counter at 10,
and clears every clue flag. -/
theorem claim_C7_witness :
    (List.range 11).Nodup ∧ (List.range 11).length = 11 ∧
    gameC7.clues_found = 0 ∧
    (∀ c ∈ List.range 11, noteAt gameC7.furniture c = some clueNote) ∧
    (∃ furn' : List Furniture,
      consumeClues gameC7 (List.range 11)
        = ({ furniture := furn', rooms := gameC7.rooms, clues_found := 10 },
           List.replicate 10 NoteOutcome.foundClue ++ [NoteOutcome.takeClue]) ∧
      ∀ c ∈ List.range 11, noteAt furn' c = some { clueNote with clue := false }) :=
  ⟨by decide, by decide, rfl, by decide,
    claim_C7 gameC7 (List.range 11) (by decide) (by decide) rfl (by decide)⟩

/-- C4 (amended): the 9 room templates pre-anchor 18 of the 35 furniture
codes (all distinct catalog codes), so removing them from the catalog leaves
17 codes unassigned when the random distribution begins — the spec's 17/18
are swapped. -/
theorem claim_C4 :
    furnitureCodes.length = 35 ∧
    (roomTemplates.flatMap (fun r => r.furniture)).length = 18 ∧
    (roomTemplates.flatMap (fun r => r.furniture)).Nodup ∧
    (∀ c ∈ roomTemplates.flatMap (fun r => r.furniture), c ∈ furnitureCodes) ∧
    (removeFirstAll furnitureCodes
      (roomTemplates.flatMap (fun r => r.furniture))).map List.length = some 17 := by
  refine ⟨by decide, by decide, by decide, by decide, by decide⟩

/-- C4 (counterexample to the spec's numbers): the templates do not anchor
17 codes, and the unassigned remainder is not 18. -/
theorem claim_C4_counterexample :
    ¬ ((roomTemplates.flatMap (fun r => r.furniture)).length = 17 ∨
      (removeFirstAll furnitureCodes
        (roomTemplates.flatMap (fun r => r.furniture))).map List.length = some 18) := by decide

/-- Checks the three seed-specific not-in facts on a generated game: some
hint names its own carrier, two distinct carriers name the same target, and
no hint names the money piece. -/
def c10check (og : Option Game) : Bool :=
  match og with
  | none => false
  | some game =>
    decide ((∃ f ∈ game.furniture, f.note.bind (fun nt => nt.not_in) = some f.code) ∧
      (∃ f1 ∈ game.furniture, ∃ f2 ∈ game.furniture, f1.code ≠ f2.code ∧
        (f1.note.bind (fun nt => nt.not_in)).isSome = true ∧
        f1.note.bind (fun nt => nt.not_in) = f2.note.bind (fun nt => nt.not_in)) ∧
      (∃ fm ∈ game.furniture, (fm.note.map (fun nt => nt.money)).getD false = true ∧
        ∀ f ∈ game.furniture, f.note.bind (fun nt => nt.not_in) ≠ some fm.code))

set_option maxRecDepth 1000000

/-- C10: not-in hint targets are drawn from the 34 non-money pieces with
replacement: at seed 2 one hint's carrier references itself, two distinct
carriers reference the same target, and (the money piece being the only
excluded target) no hint references the money piece. -/
theorem claim_C10 :
    ∃ game : Game, gameInit ⟨0, 624⟩ 2 = some game ∧
      (∃ f ∈ game.furniture, f.note.bind (fun nt => nt.not_in) = some f.code) ∧
      (∃ f1 ∈ game.furniture, ∃ f2 ∈ game.furniture, f1.code ≠ f2.code ∧
        (f1.note.bind (fun nt => nt.not_in)).isSome = true ∧
        f1.note.bind (fun nt => nt.not_in) = f2.note.bind (fun nt => nt.not_in)) ∧
      (∃ fm ∈ game.furniture, (fm.note.map (fun nt => nt.money)).getD false = true ∧
        ∀ f ∈ game.furniture, f.note.bind (fun nt => nt.not_in) ≠ some fm.code) := by
  have h : c10check (gameInit ⟨0, 624⟩ 2) = true := by decide
  rcases he : gameInit ⟨0, 624⟩ 2 with _ | game
  · rw [he] at h
    simp [c10check] at h
  · rw [he] at h
    simp only [c10check] at h
    exact ⟨game, rfl, of_decide_eq_true h⟩
